import Mathlib

set_option maxHeartbeats 2000000
set_option maxRecDepth 8000

deriving instance DecidableEq for Except

/-!
Verification development for the ivy-lint declaration-reordering formatters
(`ivy_lint/formatters/function_ordering.py`, `ivy_lint/formatters/class_ordering.py`,
`ivy_lint/formatters/base_formatter.py`).

The Python source is shallowly embedded: a Python module is modelled as the list of
its top-level statements, each paired with the "decorated span" string that
`_extract_node_with_leading_comments` extracts for it (comments and blank lines
attached to the declaration).  Statements are a closed inductive covering the node
kinds the formatters inspect (`ast.Import`/`ImportFrom`, `ast.Assign`,
`ast.FunctionDef`, `ast.ClassDef`, `ast.Expr`, `ast.Try`, plus `return`/`pass`
for function bodies).  Machine-level Python behaviours that the source relies on
are modelled explicitly: `str` membership is substring search, `set` difference
compares elements by equality (a `str` never equals a 2-tuple), `sorted` is a
stable sort by the key tuple, and `networkx.topological_sort` is Kahn's algorithm
raising `NetworkXUnfeasible` on a cycle.
-/

namespace IvyLint

/-! ### Python string primitives -/

/-- The single-quote character (used by the `ast.dump` model). -/
def squote : Char := Char.ofNat 39

/-- One-character string holding a single quote. -/
def sq : String := String.singleton squote

/-- `chLead pat cs` is true when `pat` is an initial segment of `cs`. -/
def chLead : List Char → List Char → Bool
  | [], _ => true
  | _ :: _, [] => false
  | p :: ps, c :: cs => p == c && chLead ps cs

/-- `chHasSub sub cs` is true when `sub` occurs contiguously inside `cs`. -/
def chHasSub (sub : List Char) : List Char → Bool
  | [] => sub.isEmpty
  | c :: cs => chLead sub (c :: cs) || chHasSub sub cs

/-- Python `sub in s` (substring containment; `"" in s` is `True`). -/
def py_in (sub s : String) : Bool := chHasSub sub.data s.data

/-- Python `s.startswith(pre)`. -/
def py_startswith (s pre : String) : Bool := chLead pre.data s.data

/-- Python `s.endswith(suf)`. -/
def py_endswith (s suf : String) : Bool := chLead suf.data.reverse s.data.reverse

/-- The characters Python `str.strip()` removes. -/
def isPySpace (c : Char) : Bool :=
  c == ' ' || c == '\t' || c == '\n' || c == '\r' || c == Char.ofNat 11 || c == Char.ofNat 12

/-- Python `s.strip()` with no argument. -/
def py_strip (s : String) : String :=
  (((s.data.dropWhile isPySpace).reverse.dropWhile isPySpace).reverse).asString

/-- Python `s.strip("#")` (used by the extended rearrange pass). -/
def py_strip_hash (s : String) : String :=
  (((s.data.dropWhile (· == '#')).reverse.dropWhile (· == '#')).reverse).asString

/-- Split a string at newline characters (Python `str.splitlines`-style, used to
model the header-removal regex line by line). -/
def chSplitLines : List Char → List (List Char)
  | [] => [[]]
  | c :: cs =>
    if c == '\n' then [] :: chSplitLines cs
    else
      match chSplitLines cs with
      | [] => [[c]]
      | l :: ls => (c :: l) :: ls

/-- Join with newlines, inverse of `chSplitLines`. -/
def joinLines : List String → String
  | [] => ""
  | [l] => l
  | l :: ls => l ++ "\n" ++ joinLines ls

/-- Strict lexicographic comparison of char lists by code point (Python `<`
on `str`). -/
def chLt : List Char → List Char → Bool
  | [], [] => false
  | [], _ :: _ => true
  | _ :: _, [] => false
  | a :: as, b :: bs =>
      if a.toNat < b.toNat then true
      else if b.toNat < a.toNat then false
      else chLt as bs

/-- Lexicographic `≤` of char lists by code point. -/
def chLe : List Char → List Char → Bool
  | [], _ => true
  | _ :: _, [] => false
  | a :: as, b :: bs =>
      if a.toNat < b.toNat then true
      else if b.toNat < a.toNat then false
      else chLe as bs

/-- Python `a < b` on strings. -/
def pyStrLt (a b : String) : Bool := chLt a.data b.data

/-- Python `a <= b` on strings. -/
def pyStrLe (a b : String) : Bool := chLe a.data b.data

theorem chLe_total : ∀ as bs : List Char, chLe as bs = true ∨ chLe bs as = true
  | [], _ => Or.inl rfl
  | _ :: _, [] => Or.inr rfl
  | a :: as, b :: bs => by
      simp only [chLe]
      rcases Nat.lt_trichotomy a.toNat b.toNat with h | h | h
      · left; rw [if_pos h]
      · have h1 : ¬ a.toNat < b.toNat := by omega
        have h2 : ¬ b.toNat < a.toNat := by omega
        rw [if_neg h1, if_neg h2, if_neg h2, if_neg h1]
        exact chLe_total as bs
      · right; rw [if_pos h]

theorem chLe_trans : ∀ as bs cs : List Char,
    chLe as bs = true → chLe bs cs = true → chLe as cs = true
  | [], _, _, _, _ => rfl
  | a :: as, [], _, h, _ => by simp [chLe] at h
  | a :: as, b :: bs, [], _, h => by simp [chLe] at h
  | a :: as, b :: bs, c :: cs, h1, h2 => by
      simp only [chLe] at h1 h2 ⊢
      by_cases hab : a.toNat < b.toNat
      · rw [if_pos hab] at h1
        by_cases hbc : b.toNat < c.toNat
        · rw [if_pos (by omega : a.toNat < c.toNat)]
        · by_cases hcb : c.toNat < b.toNat
          · rw [if_neg hbc, if_pos hcb] at h2
            exact absurd h2 (by simp)
          · rw [if_pos (by omega : a.toNat < c.toNat)]
      · by_cases hba : b.toNat < a.toNat
        · rw [if_neg hab, if_pos hba] at h1
          exact absurd h1 (by simp)
        · by_cases hbc : b.toNat < c.toNat
          · rw [if_pos (by omega : a.toNat < c.toNat)]
          · by_cases hcb : c.toNat < b.toNat
            · rw [if_neg hbc, if_pos hcb] at h2
              exact absurd h2 (by simp)
            · rw [if_neg hab, if_neg hba] at h1
              rw [if_neg hbc, if_neg hcb] at h2
              rw [if_neg (by omega : ¬ a.toNat < c.toNat),
                if_neg (by omega : ¬ c.toNat < a.toNat)]
              exact chLe_trans as bs cs h1 h2

theorem pyStrLe_total (a b : String) : pyStrLe a b = true ∨ pyStrLe b a = true :=
  chLe_total a.data b.data

theorem pyStrLe_trans {a b c : String} (h1 : pyStrLe a b = true) (h2 : pyStrLe b c = true) :
    pyStrLe a c = true :=
  chLe_trans a.data b.data c.data h1 h2

/-! ### The embedded Python AST -/

/-- Expressions (the fragment the formatters inspect). -/
inductive Expr where
  | name (id : String)
  | num (n : Int)
  | str (s : String)
  | attrE (value : Expr) (attrName : String)
  deriving DecidableEq, Repr

/-- Assignment targets: `ast.Name`, `ast.Attribute`, or anything else
(tuple targets and the like, which both formatters ignore). -/
inductive Tgt where
  | name (id : String)
  | attrT (base : String) (attrName : String)
  | other
  deriving DecidableEq, Repr

mutual

/-- Statements: the node kinds the formatters dispatch on.  Bodies are a
mutually-defined statement list (`StmtList`), isomorphic to `List Stmt`. -/
inductive Stmt where
  | imprt
  | importFrom
  | assign (targets : List Tgt) (value : Expr)
  | funcDef (name : String) (decorator_list : List Expr) (body : StmtList)
  | classDef (name : String) (bases : List Expr) (body : StmtList)
  | exprStmt (value : Expr)
  | tryStmt (body : StmtList)
  | ret (value : Expr)
  | passStmt

/-- A list of statements (mutual with `Stmt`). -/
inductive StmtList where
  | nil
  | cons (s : Stmt) (rest : StmtList)

end

deriving instance DecidableEq for Stmt, StmtList

/-- Convert a statement list to an ordinary `List`. -/
def StmtList.toList : StmtList → List Stmt
  | .nil => []
  | .cons s rest => s :: rest.toList

/-- Build a `StmtList` from an ordinary `List`. -/
def stl : List Stmt → StmtList
  | [] => .nil
  | s :: rest => .cons s (stl rest)

/-! ### A model of `ast.dump`

`related_helper_function` decides relatedness by substring search inside
`ast.dump(node)`.  We render our node fragment in the same format CPython's
`ast.dump` uses, so that an identifier occurs in the dump exactly when the
node's subtree mentions it (for identifiers that do not collide with the
boilerplate field names). -/

def dumpExpr : Expr → String
  | .name id => "Name(id=" ++ sq ++ id ++ sq ++ ", ctx=Load())"
  | .num n => "Constant(value=" ++ toString n ++ ")"
  | .str s => "Constant(value=" ++ sq ++ s ++ sq ++ ")"
  | .attrE v a => "Attribute(value=" ++ dumpExpr v ++ ", attr=" ++ sq ++ a ++ sq ++ ", ctx=Load())"

def dumpTgt : Tgt → String
  | .name id => "Name(id=" ++ sq ++ id ++ sq ++ ", ctx=Store())"
  | .attrT b a =>
      "Attribute(value=Name(id=" ++ sq ++ b ++ sq ++ ", ctx=Load()), attr=" ++ sq ++ a ++ sq
        ++ ", ctx=Store())"
  | .other => "Tuple(elts=[], ctx=Store())"

def dumpListWith (f : α → String) : List α → String
  | [] => ""
  | [a] => f a
  | a :: rest => f a ++ ", " ++ dumpListWith f rest

mutual

def dumpStmt : Stmt → String
  | .imprt => "Import(names=[alias(name=" ++ sq ++ "m" ++ sq ++ ")])"
  | .importFrom => "ImportFrom(module=" ++ sq ++ "m" ++ sq ++ ", names=[], level=0)"
  | .assign tgts v =>
      "Assign(targets=[" ++ dumpListWith dumpTgt tgts ++ "], value=" ++ dumpExpr v
        ++ ", type_comment=None)"
  | .funcDef nm decs body =>
      "FunctionDef(name=" ++ sq ++ nm ++ sq
        ++ ", args=arguments(posonlyargs=[], args=[], vararg=None, kwonlyargs=[],"
        ++ " kw_defaults=[], kwarg=None, defaults=[]), body=[" ++ dumpStmts body
        ++ "], decorator_list=[" ++ dumpListWith dumpExpr decs ++ "], returns=None,"
        ++ " type_comment=None)"
  | .classDef nm bases body =>
      "ClassDef(name=" ++ sq ++ nm ++ sq ++ ", bases=[" ++ dumpListWith dumpExpr bases
        ++ "], keywords=[], body=[" ++ dumpStmts body ++ "], decorator_list=[])"
  | .exprStmt v => "Expr(value=" ++ dumpExpr v ++ ")"
  | .tryStmt body =>
      "Try(body=[" ++ dumpStmts body ++ "], handlers=[], orelse=[], finalbody=[])"
  | .ret v => "Return(value=" ++ dumpExpr v ++ ")"
  | .passStmt => "Pass()"

def dumpStmts : StmtList → String
  | .nil => ""
  | .cons s .nil => dumpStmt s
  | .cons s rest => dumpStmt s ++ ", " ++ dumpStmts rest

end

/-! ### Directed graphs (`networkx.DiGraph` model) -/

/-- A directed graph with insertion-ordered node and edge lists
(membership-deduplicated, like `networkx.DiGraph`). -/
structure DiGraph where
  nodes : List String
  edges : List (String × String)
  deriving DecidableEq, Repr

def DiGraph.empty : DiGraph := ⟨[], []⟩

def DiGraph.add_node (g : DiGraph) (n : String) : DiGraph :=
  if g.nodes.contains n then g else ⟨g.nodes ++ [n], g.edges⟩

def DiGraph.has_node (g : DiGraph) (n : String) : Bool := g.nodes.contains n

/-- `networkx` `add_edge` also inserts missing endpoint nodes. -/
def DiGraph.add_edge (g : DiGraph) (u v : String) : DiGraph :=
  let g := (g.add_node u).add_node v
  if g.edges.contains (u, v) then g else ⟨g.nodes, g.edges ++ [(u, v)]⟩

/-- The Python exceptions the format driver can observe. -/
inductive PyErr where
  | syntaxError
  | networkxUnfeasible
  deriving DecidableEq, Repr

/-- Nodes of `nodes` with no incoming edge in `edges`. -/
def zeroIndegree (nodes : List String) (edges : List (String × String)) : List String :=
  nodes.filter (fun n => !(edges.any (fun e => e.2 == n)))

/-- Kahn's algorithm, layer by layer in node-insertion order; models
`networkx.topological_sort`, which raises `NetworkXUnfeasible` when the graph
has a cycle. -/
def kahnAux : Nat → List String → List (String × String) → Except PyErr (List String)
  | 0, remaining, _ =>
      if remaining.isEmpty then .ok [] else .error .networkxUnfeasible
  | fuel + 1, remaining, edges =>
      if remaining.isEmpty then .ok []
      else
        let layer := zeroIndegree remaining edges
        if layer.isEmpty then .error .networkxUnfeasible
        else
          let rest := remaining.filter (fun n => !(layer.contains n))
          let edges2 := edges.filter (fun e => !(layer.contains e.1))
          (kahnAux fuel rest edges2).map (fun l => layer ++ l)

/-- `list(nx.topological_sort(g))`. -/
def topological_sort (g : DiGraph) : Except PyErr (List String) :=
  kahnAux g.nodes.length g.nodes g.edges

/-! ### `function_ordering.py`: analysis helpers -/

/-- Recursive walk of an expression collecting every `ast.Name` id
(the inner `extract_names` walker of `extract_names_from_assignment`). -/
def extract_names : Expr → List String
  | .name id => [id]
  | .num _ => []
  | .str _ => []
  | .attrE v _ => extract_names v

/-- `extract_names_from_assignment`: names referenced by the right-hand side
(`node.value`) of an assignment. -/
def extract_names_from_assignment (node : Stmt) : List String :=
  match node with
  | .assign _ value => extract_names value
  | _ => []

/-- `class_build_dependency_graph`: edges base-class → subclass over `ast.Name`
bases.  The source iterates `(code, node)` pairs but reads only the node, so the
embedding takes the statement list. -/
def class_build_dependency_graph (ctx : List Stmt) : DiGraph :=
  ctx.foldl
    (fun graph n =>
      match n with
      | .classDef nm bases _ =>
          let graph := graph.add_node nm
          bases.foldl
            (fun graph b =>
              match b with
              | .name bid =>
                  let graph := if graph.has_node bid then graph else graph.add_node bid
                  graph.add_edge bid nm
              | _ => graph)
            graph
      | _ => graph)
    DiGraph.empty

/-- `assignment_build_dependency_graph`: first pass adds a node per simple-name
assignment target, second pass adds an edge referenced-name → target for every
referenced name that is itself a node. -/
def assignment_build_dependency_graph (ctx : List Stmt) : DiGraph :=
  let g1 := ctx.foldl
    (fun graph n =>
      match n with
      | .assign targets _ =>
          targets.foldl
            (fun graph t =>
              match t with
              | .name id => graph.add_node id
              | _ => graph)
            graph
      | _ => graph)
    DiGraph.empty
  ctx.foldl
    (fun graph n =>
      match n with
      | .assign targets _ =>
          let right_side_names := extract_names_from_assignment n
          targets.foldl
            (fun graph t =>
              match t with
              | .name id =>
                  right_side_names.foldl
                    (fun graph nm =>
                      if graph.has_node nm then graph.add_edge nm id else graph)
                    graph
              | _ => graph)
            graph
      | _ => graph)
    g1

/-- `has_st_composite_decorator`: some decorator is an `ast.Attribute` whose
attribute name is `"composite"`. -/
def has_st_composite_decorator (node : Stmt) : Bool :=
  match node with
  | .funcDef _ decs _ =>
      decs.any fun d =>
        match d with
        | .attrE _ a => a == "composite"
        | _ => false
  | _ => false

/-- `contains_any_name`: `any(name in code for name in names)` (substring). -/
def contains_any_name (code : String) (names : List String) : Bool :=
  names.any fun nm => py_in nm code

/-- `related_helper_function`: the first `FunctionDef`/`ClassDef` whose name
starts with an underscore and whose `ast.dump` contains `assignment_name` as a
substring. -/
def related_helper_function (assignment_name : String) (ctx : List Stmt) : Option String :=
  ctx.findSome? fun n =>
    match n with
    | .funcDef nm _ _ =>
        if py_startswith nm "_" && contains_any_name (dumpStmt n) [assignment_name] then
          some nm
        else none
    | .classDef nm _ _ =>
        if py_startswith nm "_" && contains_any_name (dumpStmt n) [assignment_name] then
          some nm
        else none
    | _ => none

/-- `_is_assignment_target_an_attribute`: some target is an `ast.Attribute`. -/
def _is_assignment_target_an_attribute (node : Stmt) : Bool :=
  match node with
  | .assign targets _ =>
      targets.any fun t =>
        match t with
        | .attrT _ _ => true
        | _ => false
  | _ => false

/-- The `all_assignments` set of `_rearrange_functions_and_classes`: every
simple-name assignment target among the siblings. -/
def all_assignments_of (ctx : List Stmt) : List String :=
  (ctx.map fun n =>
    match n with
    | .assign targets _ =>
        targets.filterMap fun t =>
          match t with
          | .name id => some id
          | _ => none
    | _ => []).flatten

/-- `_is_assignment_dependent_on_assignment` (closure over `all_assignments`). -/
def _is_assignment_dependent_on_assignment (ctx : List Stmt) (node : Stmt) : Bool :=
  match node with
  | .assign _ _ =>
      let right_side_names := extract_names_from_assignment node
      (all_assignments_of ctx).any fun nm => right_side_names.contains nm
  | _ => false

/-- The sibling function/class names used by
`_is_assignment_dependent_on_function_or_class`. -/
def function_and_class_names_of (ctx : List Stmt) : List String :=
  ctx.filterMap fun n =>
    match n with
    | .funcDef nm _ _ => some nm
    | .classDef nm _ _ => some nm
    | _ => none

/-- `_is_assignment_dependent_on_function_or_class`. -/
def _is_assignment_dependent_on_function_or_class (ctx : List Stmt) (node : Stmt) : Bool :=
  match node with
  | .assign _ _ =>
      let right_side_names := extract_names_from_assignment node
      (function_and_class_names_of ctx).any fun nm => right_side_names.contains nm
  | _ => false

/-! ### The Python `set` subtraction performed on graph nodes/edges

Both formatters compute `set(graph.nodes()) - set(graph.edges())`.  Python set
difference removes the elements of the right operand that compare equal; node
names are `str` and edges are 2-tuples, so the values live in a common dynamic
universe, modelled by `PyVal`. -/

/-- A Python value that is either a string or a pair of strings. -/
inductive PyVal where
  | pstr (v : String)
  | ptup (a b : String)
  deriving DecidableEq, Repr

/-- Python set difference (by element equality; membership-relevant only). -/
def pySetDiff (A B : List PyVal) : List PyVal := A.filter fun a => !(B.contains a)

def graph_node_set (g : DiGraph) : List PyVal := g.nodes.map PyVal.pstr

def graph_edge_set (g : DiGraph) : List PyVal := g.edges.map fun e => PyVal.ptup e.1 e.2

/-- `dependent_assignments = set(graph.nodes()) - set(graph.edges())`
(class_ordering.py lines 71-72 and function_ordering.py lines 342-344). -/
def dependent_assignments_of (g : DiGraph) : List PyVal :=
  pySetDiff (graph_node_set g) (graph_edge_set g)

/-- `independent_assignments = set(graph.nodes()) - dependent_assignments`
(class_ordering.py line 73). -/
def independent_assignments_of (g : DiGraph) : List PyVal :=
  pySetDiff (graph_node_set g) (dependent_assignments_of g)

/-! ### `sort_key` -/

/-- The key tuple (`float`, `int`, `str`) returned by `sort_key`. -/
abbrev SKey := ℚ × Nat × String

/-- Python `",".join names`. -/
def joinCommas : List String → String
  | [] => ""
  | [s] => s
  | s :: rest => s ++ "," ++ joinCommas rest

/-- `list.index`, returning `none` when absent (source catches `ValueError`). -/
def listIndexOf : List String → String → Option Nat
  | [], _ => none
  | a :: rest, x => if a == x then some 0 else (listIndexOf rest x).map (· + 1)

/-- First index satisfying the predicate; the source's
`[i for i, ... if ...][0]` is only evaluated when a match exists. -/
def listFindIdx (p : α → Bool) : List α → Nat
  | [] => 0
  | a :: rest => if p a then 0 else listFindIdx p rest + 1

/-- The condition `node.name.startswith("_") or has_st_composite_decorator(node)`
applied to a `FunctionDef` (the helper-function category test). -/
def is_helper_function (node : Stmt) : Bool :=
  match node with
  | .funcDef nm _ _ => py_startswith nm "_" || has_st_composite_decorator node
  | _ => false

/-- A `FunctionDef` that is not helper-category (the "api"/main category). -/
def is_api_function (node : Stmt) : Bool :=
  match node with
  | .funcDef _ _ _ => !(is_helper_function node)
  | _ => false

/-- `isinstance(node, ast.FunctionDef) and node.name.startswith("_")`
(the `has_helper_functions` test, which ignores composite decorators). -/
def is_underscore_function : Stmt → Bool
  | .funcDef nm _ _ => py_startswith nm "_"
  | _ => false

/-- `[t.id for t in node.targets if isinstance(t, ast.Name)]`. -/
def assign_target_names (targets : List Tgt) : List String :=
  targets.filterMap fun t =>
    match t with
    | .name id => some id
    | _ => none

/-- `sort_key` of `_rearrange_functions_and_classes`.  The source receives the
`(code, node)` pair but reads only the node; the closure context
(`nodes_with_comments`, `sorted_classes`, `all_assignments`) is passed
explicitly. -/
def sort_key (ctx : List Stmt) (sorted_classes : List String) (node : Stmt) : SKey :=
  match node with
  | .imprt => (0, 0, "")
  | .importFrom => (0, 0, "")
  | .tryStmt body =>
      if body.toList.any fun n =>
          match n with
          | .imprt => true
          | .importFrom => true
          | _ => false
      then (0, 1, "")
      else (8, 0, "")
  | .assign targets _ =>
      let target_str := joinCommas (assign_target_names targets)
      match related_helper_function target_str ctx with
      | some related =>
          let function_position := listFindIdx
            (fun n =>
              match n with
              | .funcDef nm _ _ => nm == related
              | .classDef nm _ _ => nm == related
              | _ => false)
            ctx
          (6, function_position, target_str)
      | none =>
          -- the source's 5.5 (written `mkRat 11 2` so the kernel can evaluate it)
          if _is_assignment_target_an_attribute node then (mkRat 11 2, 0, target_str)
          else if _is_assignment_dependent_on_assignment ctx node then (7, 0, target_str)
          else if _is_assignment_dependent_on_function_or_class ctx node then (6, 0, target_str)
          else (1, 0, target_str)
  | .classDef nm _ _ =>
      match listIndexOf sorted_classes nm with
      | some i => (2, i, nm)
      | none => (2, sorted_classes.length, nm)
  | .funcDef nm decs body =>
      if is_helper_function (.funcDef nm decs body) then (4, 0, nm) else (5, 0, nm)
  | _ => (8, 0, "")

/-- Lexicographic `≤` on key tuples: Python's tuple comparison (strings are
compared by code point). -/
def keyLE (a b : SKey) : Prop :=
  a.1 < b.1 ∨ (a.1 = b.1 ∧ (a.2.1 < b.2.1 ∨ (a.2.1 = b.2.1 ∧ pyStrLe a.2.2 b.2.2 = true)))

instance keyLE.instDecidable (a b : SKey) : Decidable (keyLE a b) := by
  unfold keyLE; infer_instance

/-- The sort relation on `(code, node)` pairs induced by `sort_key`. -/
def pairLE (ctx : List Stmt) (sorted_classes : List String) (x y : String × Stmt) : Prop :=
  keyLE (sort_key ctx sorted_classes x.2) (sort_key ctx sorted_classes y.2)

instance pairLE.instDecRel (ctx : List Stmt) (scs : List String) :
    DecidableRel (pairLE ctx scs) := fun x y => by
  unfold pairLE; infer_instance

/-! ### Header removal, emission, and the reordering pipeline -/

/-- The "Helpers" section header emitted before the first helper function. -/
def helpers_section_header : String := "\n\n# --- Helpers --- #\n# --------------- #\n"

/-- The "Main" section header emitted before the first api function. -/
def main_section_header : String := "\n\n# --- Main --- #\n# ------------ #"

def headerTitleLine (l : List Char) : Bool :=
  l.asString == "# --- Helpers --- #" || l.asString == "# --- Main --- #"
    || l.asString == "# --- API Functions --- #"

def headerDashLine (l : List Char) : Bool :=
  l.asString == "# --------------- #" || l.asString == "# ------------ #"

def blankLine (l : List Char) : Bool := l.all isPySpace

/-- Line-level model of `HEADER_PATTERN.sub("", ...)`: drop a canonical header
line followed by its dash line, together with the blank lines that follow
(the regex's trailing `(?:\s*\n)*`).  Fuel-driven recursion; every step consumes
at least one line, so fuel = number of lines always suffices. -/
def stripHeaderAux : Nat → List (List Char) → List (List Char)
  | 0, ls => ls
  | _ + 1, [] => []
  | fuel + 1, l1 :: rest =>
      if headerTitleLine l1 then
        match rest with
        | l2 :: rest2 =>
            if headerDashLine l2 then stripHeaderAux fuel (rest2.dropWhile blankLine)
            else l1 :: stripHeaderAux fuel rest
        | [] => [l1]
      else l1 :: stripHeaderAux fuel rest

def stripHeaderLines (ls : List (List Char)) : List (List Char) :=
  stripHeaderAux ls.length ls

/-- `_remove_existing_headers` (applied to each extracted span). -/
def _remove_existing_headers (source_code : String) : String :=
  joinLines ((stripHeaderLines (chSplitLines source_code.data)).map List.asString)

/-- An element of the emitted output list: an injected section header, the
re-emitted module docstring, or a declaration's decorated span. -/
inductive Item where
  | header (text : String)
  | docstr (s : String)
  | code (text : String) (node : Stmt)
  deriving DecidableEq

/-- The `last_function_type` state values (`"helper"` / `"api"`). -/
inductive FT where
  | helper
  | api
  deriving DecidableEq, Repr

/-- `isinstance(node, ast.Expr) and isinstance(node.value, ast.Str)`. -/
def isStrExprStmt : Stmt → Bool
  | .exprStmt (.str _) => true
  | _ => false

/-- The docstring check of `_rearrange_functions_and_classes`: module body
starting with a string-expression whose value is truthy (non-empty). -/
def module_docstring : List (String × Stmt) → Option String
  | (_, .exprStmt (.str s)) :: _ => if s == "" then none else some s
  | _ => none

/-- The main emission loop of `_rearrange_functions_and_classes` (lines
504-538), with state `prev_was_assignment` and `last_function_type`.  The
source's first step, `continue` when `docstring_added and` the node is a
string-expression, is the string-expression branch here (when
`docstring_added` is false such a node falls through to the general `else`
branch of the source loop, which is the `else` below). -/
def emitLoop (has_helper_functions docstring_added : Bool) :
    Bool → Option FT → List (String × Stmt) → List Item
  | _, _, [] => []
  | prev, last, (code, node) :: rest =>
      match node with
      | .exprStmt (.str s) =>
          if docstring_added then
            emitLoop has_helper_functions docstring_added prev last rest
          else
            Item.code code (.exprStmt (.str s))
              :: emitLoop has_helper_functions docstring_added false last rest
      | .funcDef nm decs body =>
          if is_helper_function (.funcDef nm decs body) then
            (if last != some FT.helper then [Item.header helpers_section_header] else [])
              ++ Item.code code (.funcDef nm decs body)
                :: emitLoop has_helper_functions docstring_added false (some FT.helper) rest
          else
            (if last != some FT.api && has_helper_functions then
                [Item.header main_section_header]
              else [])
              ++ Item.code code (.funcDef nm decs body)
                :: emitLoop has_helper_functions docstring_added false (some FT.api) rest
      | .assign tgts v =>
          Item.code (if prev then py_strip code else code) (.assign tgts v)
            :: emitLoop has_helper_functions docstring_added true last rest
      | _ =>
          Item.code code node
            :: emitLoop has_helper_functions docstring_added false last rest

/-- Docstring prelude plus the emission loop over the sorted pairs. -/
def buildItems (pairs nodes_sorted : List (String × Stmt)) : List Item :=
  let docOpt := module_docstring pairs
  let has_helper_functions := nodes_sorted.any fun p => is_underscore_function p.2
  (match docOpt with
    | some s => [Item.docstr s]
    | none => []) ++ emitLoop has_helper_functions docOpt.isSome false none nodes_sorted

/-- `_remove_existing_headers` applied to the whole source text, observed at
the extraction pairs: only the decorated spans change (header comment blocks
are comments, so statements are unaffected). -/
def stripped_pairs (pairs0 : List (String × Stmt)) : List (String × Stmt) :=
  pairs0.map fun p => (_remove_existing_headers p.1, p.2)

/-- The core of `_rearrange_functions_and_classes` (extended pass excluded):
strip existing headers, build the class-inheritance topological order (which
raises `NetworkXUnfeasible` on an inheritance cycle), build the assignment
graph, sort by `sort_key`, and emit.  Returns the topological order together
with the emitted items. -/
def rearrange_core (pairs0 : List (String × Stmt)) :
    Except PyErr (List String × List Item) :=
  let pairs := stripped_pairs pairs0
  let ctx := pairs.map Prod.snd
  match topological_sort (class_build_dependency_graph ctx) with
  | .error e => .error e
  | .ok sorted_classes =>
      -- lines 338-352: the dependent/independent sets are computed and the
      -- final `all_assignments - dependent_assignments` expression is discarded
      let _dependent_assignments :=
        dependent_assignments_of (assignment_build_dependency_graph ctx)
      let nodes_sorted := List.insertionSort (pairLE ctx sorted_classes) pairs
      .ok (sorted_classes, buildItems pairs nodes_sorted)

/-- `f'"""{docstring}"""'`. -/
def tripleQuote (s : String) : String := "\"\"\"" ++ s ++ "\"\"\""

/-- The span string an item contributes to the joined output text. -/
def itemCode : Item → String
  | .header h => h
  | .docstr s => tripleQuote s
  | .code c _ => c

def itemCodes (items : List Item) : List String := items.map itemCode

/-- The statement sequence of the output text: headers are comments (no
statement), the docstring parses back to a string-expression statement. -/
def itemStmts (items : List Item) : List Stmt :=
  items.filterMap fun it =>
    match it with
    | .header _ => none
    | .docstr s => some (.exprStmt (.str s))
    | .code _ n => some n

/-- Re-extraction of the written output: a header comment block becomes part of
the leading-comment span of the following declaration. -/
def reparseAux (pending : String) : List Item → List (String × Stmt)
  | [] => []
  | .header h :: rest => reparseAux (pending ++ h) rest
  | .docstr s :: rest => (pending ++ tripleQuote s, .exprStmt (.str s)) :: reparseAux "" rest
  | .code c n :: rest => (pending ++ c, n) :: reparseAux "" rest

def reparseItems (items : List Item) : List (String × Stmt) := reparseAux "" items

/-- The reordering at statement level: the output's statement sequence is
invariant under the text rendering (`black` reformats but preserves the
statement sequence, per the spec's round-trip contract for the renderer),
so re-running the formatter on its own output sorts exactly this list. -/
def reorder_stmts (stmts : List Stmt) : Except PyErr (List Stmt) :=
  (rearrange_core (stmts.map fun s => ("", s))).map fun r => itemStmts r.2

/-! ### `_extended_rearrange_functions_and_classes`

The extended pass (applied to `ivy/functional/{backends,stateful,ivy}` files)
re-parses the original source, groups the non-helper functions into the
organizational sections named by `section_headers`, sorts each section with the
first pass's `sort_key` closure, and splices the result into the first pass's
output.  No claim exercises this pass; it is embedded for the completeness of
`_format_file`. -/

def section_headers : List String :=
  ["# Array API Standard", "# Autograd", "# Optimizer Steps", "# Optimizer Updates",
   "# Array Printing", "# Device Queries", "# Retrieval", "# Conversions", "# Memory",
   "# Utilization", "# Availability", "# Default Device", "# Device Allocation",
   "# Function Splitting", "# Profiler"]

/-- Insertion-ordered dict update (`sorted_sections[current_header] = ...`). -/
def dictSet (d : List (String × List (String × Stmt))) (k : String)
    (v : List (String × Stmt)) : List (String × List (String × Stmt)) :=
  if d.any (fun p => p.1 == k) then d.map fun p => if p.1 == k then (k, v) else p
  else d ++ [(k, v)]

/-- The section-collection loop of the extended pass (lines 593-606). -/
def collectSections (current_header : String) (current_section : List (String × Stmt))
    (d : List (String × List (String × Stmt))) :
    List (String × Stmt) → List (String × List (String × Stmt))
  | [] => d
  | (code, node) :: rest =>
      match node with
      | .funcDef nm decs body =>
          if is_helper_function (.funcDef nm decs body) then
            collectSections current_header current_section d rest
          else
            let hdrOpt := section_headers.find? fun h => py_startswith (py_strip code) h
            let st := match hdrOpt with
              | some h => (h, ([] : List (String × Stmt)))
              | none => (current_header, current_section)
            let cs := st.2 ++ [(code, .funcDef nm decs body)]
            collectSections st.1 cs (dictSet d st.1 cs) rest
      | _ => collectSections current_header current_section d rest

/-- `\s?` (greedy) then `#` then the literal header then `\s?` then `#?`:
`re.sub(rf"\s?#{re.escape(header)}\s?#?", "", code)` at one position. -/
def matchHdrCore (hdr : List Char) : List Char → Option (List Char)
  | [] => none
  | c :: cs =>
      if c == '#' then
        if chLead hdr cs then
          let cs3 := cs.drop hdr.length
          let cs4 := match cs3 with
            | c4 :: r4 => if isPySpace c4 then r4 else cs3
            | [] => cs3
          let cs5 := match cs4 with
            | c5 :: r5 => if c5 == '#' then r5 else cs4
            | [] => cs4
          some cs5
        else none
      else none

def matchHdrAt (hdr : List Char) (cs : List Char) : Option (List Char) :=
  match cs with
  | c :: r =>
      if isPySpace c then
        match matchHdrCore hdr r with
        | some rest => some rest
        | none => matchHdrCore hdr cs
      else matchHdrCore hdr cs
  | [] => none

def subHdrAux (hdr : List Char) : Nat → List Char → List Char
  | 0, cs => cs
  | _ + 1, [] => []
  | fuel + 1, c :: cs =>
      match matchHdrAt hdr (c :: cs) with
      | some rest => subHdrAux hdr fuel rest
      | none => c :: subHdrAux hdr fuel cs

/-- `pattern.sub("", code)` for the section-header pattern. -/
def py_re_sub_header (header code : String) : String :=
  (subHdrAux header.data (code.data.length + 1) code.data).asString

/-- The before/after split of the extended pass (lines 625-646), walking the
re-parsed first-pass output.  `prev_was_assignment` is never reset in this
loop; api functions are dropped here (they are re-inserted from the section
dict). -/
def extSplit (previous_was_main prev_was_assignment : Bool) :
    List (String × Stmt) → List Item × List Item
  | [] => ([], [])
  | (code, node) :: rest =>
      match node with
      | .assign tgts v =>
          let code := if prev_was_assignment then py_strip code else code
          let r := extSplit previous_was_main true rest
          if previous_was_main then (r.1, Item.code code (.assign tgts v) :: r.2)
          else (Item.code code (.assign tgts v) :: r.1, r.2)
      | .funcDef nm decs body =>
          if is_helper_function (.funcDef nm decs body) then
            let r := extSplit previous_was_main prev_was_assignment rest
            (Item.code code (.funcDef nm decs body) :: r.1, r.2)
          else
            let pm := if py_startswith (py_strip code) "# --- Main" then true
              else previous_was_main
            extSplit pm prev_was_assignment rest
      | _ =>
          let r := extSplit previous_was_main prev_was_assignment rest
          (Item.code code node :: r.1, r.2)

def _extended_rearrange_functions_and_classes (originalPairs : List (String × Stmt))
    (firstPassItems : List Item) (ctx : List Stmt) (sorted_classes : List String) :
    List Item :=
  let sorted_sections := collectSections "" [] [] originalPairs
  let sorted_sections := sorted_sections.map fun p =>
    (p.1, List.insertionSort (pairLE ctx sorted_classes) p.2)
  let reordered_code_list_main : List Item :=
    (sorted_sections.map fun p =>
      if p.1 == "" then p.2.map fun q => Item.code q.1 q.2
      else
        let header := py_strip_hash p.1
        Item.header ("#" ++ header)
          :: p.2.map fun q => Item.code (py_re_sub_header header q.1) q.2).flatten
  let nodes_with_comments := reparseItems firstPassItems
  let r := extSplit false false nodes_with_comments
  r.1 ++ reordered_code_list_main ++ r.2

/-- `_rearrange_functions_and_classes(original_source_code, extended)`. -/
def _rearrange_functions_and_classes (pairs0 : List (String × Stmt)) (extended : Bool) :
    Except PyErr (List Item) :=
  match rearrange_core pairs0 with
  | .error e => .error e
  | .ok (sorted_classes, items) =>
      .ok (if extended then
        _extended_rearrange_functions_and_classes pairs0 items (pairs0.map Prod.snd)
          sorted_classes
      else items)

/-! ### `class_ordering.py` -/

/-- `extract_names_from_assignment_inside_class` (walks `node.value`). -/
def extract_names_from_assignment_inside_class (node : Stmt) : List String :=
  match node with
  | .assign _ value => extract_names value
  | _ => []

/-- `assignment_build_dependency_graph_for_class`. -/
def assignment_build_dependency_graph_for_class (body : List Stmt) : DiGraph :=
  let g1 := body.foldl
    (fun graph n =>
      match n with
      | .assign targets _ =>
          targets.foldl
            (fun graph t =>
              match t with
              | .name id => graph.add_node id
              | _ => graph)
            graph
      | _ => graph)
    DiGraph.empty
  body.foldl
    (fun graph n =>
      match n with
      | .assign targets _ =>
          let right_side_names := extract_names_from_assignment_inside_class n
          targets.foldl
            (fun graph t =>
              match t with
              | .name id =>
                  right_side_names.foldl
                    (fun graph nm =>
                      if graph.has_node nm then graph.add_edge nm id else graph)
                    graph
              | _ => graph)
            graph
      | _ => graph)
    g1

/-- `has_property_decorators`: some decorator is an `ast.Attribute` whose
attribute name ends with `".setter"` or `".getter"` or equals `"property"`.
(Note: for `@x.setter` the attribute name is `"setter"`, and `@property` is an
`ast.Name`, so neither satisfies this test.) -/
def has_property_decorators (node : Stmt) : Bool :=
  match node with
  | .funcDef _ decs _ =>
      decs.any fun d =>
        match d with
        | .attrE _ a =>
            py_endswith a ".setter" || py_endswith a ".getter" || a == "property"
        | _ => false
  | _ => false

/-- The `ast.Expr(ast.Str(...))` "Properties" marker inserted into class
bodies. -/
def properties_header_stmt : Stmt := .exprStmt (.str "# Properties #\n# ---------- #")

/-- The `ast.Expr(ast.Str(...))` "Instance Methods" marker. -/
def instance_methods_header_stmt : Stmt :=
  .exprStmt (.str "# Instance Methods #\n# ---------------- #")

/-- `targets[0]` is an `ast.Name` whose id is in the given Python set. -/
def firstTargetIn (pvs : List PyVal) (node : Stmt) : Bool :=
  match node with
  | .assign (Tgt.name id :: _) _ => pvs.contains (PyVal.pstr id)
  | _ => false

/-- `isinstance(inner_node, ast.FunctionDef) and has_property_decorators(inner_node)`. -/
def isPropFn (n : Stmt) : Bool :=
  match n with
  | .funcDef _ _ _ => has_property_decorators n
  | _ => false

/-- `isinstance(inner_node, ast.FunctionDef) and not has_property_decorators(inner_node)`. -/
def isPlainFn (n : Stmt) : Bool :=
  match n with
  | .funcDef _ _ _ => !(has_property_decorators n)
  | _ => false

/-- The class-body reordering of
`ClassFunctionOrderingFormatter._rearrange_functions_and_classes`
(lines 70-103): independent assignments, the Properties marker, the
property-decorated functions, the Instance Methods marker, the remaining
functions, then the dependent assignments — each group filtered from the
original body in input order. -/
def rearrange_class_body (body : List Stmt) : List Stmt :=
  let g := assignment_build_dependency_graph_for_class body
  let dependent_assignments := dependent_assignments_of g
  let independent_assignments := independent_assignments_of g
  (body.filter (firstTargetIn independent_assignments))
    ++ properties_header_stmt
    :: (body.filter isPropFn)
    ++ instance_methods_header_stmt
    :: (body.filter isPlainFn)
    ++ (body.filter (firstTargetIn dependent_assignments))

/-- The top-level walk of the class formatter: rewrite every `ClassDef` body,
leave every other statement unchanged, then `ast.unparse` the tree. -/
def class_rearrange (stmts : List Stmt) : List Stmt :=
  stmts.map fun n =>
    match n with
    | .classDef nm bases body => .classDef nm bases (stl (rearrange_class_body body.toList))
    | _ => n

/-! ### File drivers (`_format_file`, `BaseFormatter.format`)

Source text is abstracted by the observations the drivers make of it: whether
`original_code.strip()` is falsy, whether `ast.parse` raises `SyntaxError`, and
otherwise the extraction pairs (decorated span, node) of its top-level
statements.  A write stores the pairs that re-extracting the written text would
produce. -/

/-- A file's content, as observed by the format drivers. -/
inductive SrcText where
  | blank
  | parseError
  | module (pairs : List (String × Stmt))
  deriving DecidableEq

/-- The file system: contents by path. -/
def FS := String → SrcText

/-- Write one file. -/
def updateFS (fs : FS) (filename : String) (v : SrcText) : FS :=
  fun m => if m = filename then v else fs m

/-- The remainder of `p` after a prefix of the given length (used to evaluate
the negative-lookahead part of the path patterns on the text after the
prefix). -/
def dropPre (p pre : String) : String := (p.data.drop pre.data.length).asString

/-- `FILE_PATTERN.match(filename)` (function_ordering.py lines 15-18 and the
identical pattern in class_ordering.py lines 8-11), for newline-free paths:
an `ivy/functional/frontends/` path not ending in `config.py`/`__init__.py`,
or an `ivy_tests/test_ivy/` path whose remainder contains none of
`__init__.py`, `conftest.py`, `helpers/`, `test_frontends/config/`. -/
def FILE_PATTERN_match (p : String) : Bool :=
  (py_startswith p "ivy/functional/frontends/"
      && !(py_endswith (dropPre p "ivy/functional/frontends/") "config.py"
            || py_endswith (dropPre p "ivy/functional/frontends/") "__init__.py"))
    || (py_startswith p "ivy_tests/test_ivy/"
      && !(py_in "__init__.py" (dropPre p "ivy_tests/test_ivy/")
            || py_in "conftest.py" (dropPre p "ivy_tests/test_ivy/")
            || py_in "helpers/" (dropPre p "ivy_tests/test_ivy/")
            || py_in "test_frontends/config/" (dropPre p "ivy_tests/test_ivy/")))

/-- `EXTENDED_FILE_PATTERN.match(filename)` (lines 20-24). -/
def EXTENDED_FILE_PATTERN_match (p : String) : Bool :=
  ["ivy/functional/backends/", "ivy/functional/stateful/", "ivy/functional/ivy/"].any
    fun pre =>
      py_startswith p pre
        && !(py_endswith (dropPre p pre) "config.py"
              || py_endswith (dropPre p pre) "__init__.py")

/-- `FunctionOrderingFormatter._format_file`.  Returns the Python return value
(`none` models Python's implicit `None`), the resulting file system, and the
list of files written.  Only `SyntaxError` is caught; every other exception
(e.g. `NetworkXUnfeasible` from `topological_sort`) propagates. -/
def FO_format_file (fs : FS) (filename : String) :
    Except PyErr (Option Bool × FS × List String) :=
  if !(FILE_PATTERN_match filename || EXTENDED_FILE_PATTERN_match filename) then
    .ok (some false, fs, [])
  else
    let extended := EXTENDED_FILE_PATTERN_match filename
    match fs filename with
    | .blank => .ok (some false, fs, [])
    | .parseError => .ok (some false, fs, [])
    | .module pairs =>
        match _rearrange_functions_and_classes pairs extended with
        | .ok items =>
            .ok (none, updateFS fs filename (.module (reparseItems items)), [filename])
        | .error .syntaxError => .ok (some false, fs, [])
        | .error e => .error e

/-- `ClassFunctionOrderingFormatter._format_file`.  The written text is
`ast.unparse` of the rewritten tree; re-extracting it yields each statement
with its rendered span (`unparseStmt` is a model of that excluded rendering
service — its exact text is never relied on). -/
def CO_format_file (fs : FS) (filename : String) :
    Except PyErr (Option Bool × FS × List String) :=
  if FILE_PATTERN_match filename == false then .ok (some false, fs, [])
  else
    match fs filename with
    | .blank => .ok (some false, fs, [])
    | .parseError => .ok (some false, fs, [])
    | .module pairs =>
        let reordered := class_rearrange (pairs.map Prod.snd)
        .ok (none, updateFS fs filename (.module (reordered.map fun s => (dumpStmt s, s))),
          [filename])

/-- Python `x or changed` for `x` the `_format_file` return value. -/
def pyOr (r : Option Bool) (changed : Bool) : Bool :=
  match r with
  | some true => true
  | _ => changed

/-- `BaseFormatter.format` specialised to `FunctionOrderingFormatter`:
`changed = self._format_file(filename) or changed` over the file list, with no
exception handling of its own. -/
def FO_format : List String → FS → Except PyErr (Bool × FS × List String)
  | [], fs => .ok (false, fs, [])
  | filename :: rest, fs =>
      match FO_format_file fs filename with
      | .error e => .error e
      | .ok (r, fs2, log) =>
          match FO_format rest fs2 with
          | .error e => .error e
          | .ok (changed, fs3, logs) => .ok (pyOr r changed, fs3, log ++ logs)

/-- The in-degree of a node (the spec's independence criterion: a target is
independent iff it has zero in-degree in the dependency graph). -/
def in_degree (g : DiGraph) (n : String) : Nat :=
  (g.edges.filter fun e => e.2 == n).length

/-! ### Order lemmas for the sort relation -/

theorem keyLE_total (a b : SKey) : keyLE a b ∨ keyLE b a := by
  unfold keyLE
  rcases lt_trichotomy a.1 b.1 with h | h | h
  · exact Or.inl (Or.inl h)
  · rcases lt_trichotomy a.2.1 b.2.1 with h2 | h2 | h2
    · exact Or.inl (Or.inr ⟨h, Or.inl h2⟩)
    · rcases pyStrLe_total a.2.2 b.2.2 with h3 | h3
      · exact Or.inl (Or.inr ⟨h, Or.inr ⟨h2, h3⟩⟩)
      · exact Or.inr (Or.inr ⟨h.symm, Or.inr ⟨h2.symm, h3⟩⟩)
    · exact Or.inr (Or.inr ⟨h.symm, Or.inl h2⟩)
  · exact Or.inr (Or.inl h)

theorem keyLE_trans {a b c : SKey} (h1 : keyLE a b) (h2 : keyLE b c) : keyLE a c := by
  unfold keyLE at h1 h2 ⊢
  rcases h1 with h1 | ⟨e1, h1⟩
  · rcases h2 with h2 | ⟨e2, _⟩
    · exact Or.inl (h1.trans h2)
    · exact Or.inl (e2 ▸ h1)
  · rcases h2 with h2 | ⟨e2, h2⟩
    · exact Or.inl (e1 ▸ h2)
    · refine Or.inr ⟨e1.trans e2, ?_⟩
      rcases h1 with h1 | ⟨f1, h1⟩
      · rcases h2 with h2 | ⟨f2, _⟩
        · exact Or.inl (h1.trans h2)
        · exact Or.inl (f2 ▸ h1)
      · rcases h2 with h2 | ⟨f2, h2⟩
        · exact Or.inl (f1 ▸ h2)
        · exact Or.inr ⟨f1.trans f2, pyStrLe_trans h1 h2⟩

theorem not_keyLE_of_fst_lt {a b : SKey} (h : b.1 < a.1) : ¬ keyLE a b := by
  unfold keyLE
  rintro (h1 | ⟨h1, -⟩)
  · exact lt_irrefl _ (h1.trans h)
  · exact lt_irrefl _ (h1 ▸ h)

instance pairLE.instIsTotal (ctx : List Stmt) (scs : List String) :
    IsTotal (String × Stmt) (pairLE ctx scs) :=
  ⟨fun _ _ => keyLE_total _ _⟩

instance pairLE.instIsTrans (ctx : List Stmt) (scs : List String) :
    IsTrans (String × Stmt) (pairLE ctx scs) :=
  ⟨fun _ _ _ => keyLE_trans⟩

/-! ### Claim C3: the independent/dependent classification of class assignments -/

theorem pstr_beq_ptup (v a b : String) : (PyVal.pstr v == PyVal.ptup a b) = false := rfl

theorem contains_pstr_of_tups (v : String) (es : List (String × String)) :
    ((es.map fun e => PyVal.ptup e.1 e.2).contains (PyVal.pstr v)) = false := by
  induction es with
  | nil => rfl
  | cons e es ih => simp [List.contains_cons, ih, pstr_beq_ptup]

/-- The Python expression `set(graph.nodes()) - set(graph.edges())` removes
nothing: a node name (`str`) never equals an edge (2-tuple). -/
theorem dependent_assignments_eq_nodes (g : DiGraph) :
    dependent_assignments_of g = graph_node_set g := by
  unfold dependent_assignments_of pySetDiff
  apply List.filter_eq_self.mpr
  intro a ha
  unfold graph_node_set at ha
  simp only [List.mem_map] at ha
  obtain ⟨v, _, rfl⟩ := ha
  unfold graph_edge_set
  rw [contains_pstr_of_tups]
  rfl

theorem contains_of_mem {a : PyVal} {l : List PyVal} (h : a ∈ l) : l.contains a = true :=
  List.elem_eq_true_of_mem h

/-- `independent_assignments` is the empty set, for every graph. -/
theorem independent_assignments_empty (g : DiGraph) :
    independent_assignments_of g = [] := by
  unfold independent_assignments_of pySetDiff
  rw [dependent_assignments_eq_nodes]
  apply List.filter_eq_nil_iff.mpr
  intro a ha
  rw [contains_of_mem ha]
  simp

/-- The failing input for C3: a class body containing only `x = 1`. -/
def c3_failing_body : List Stmt := [.assign [Tgt.name "x"] (Expr.num 1)]

/-- C3: the claim says an assignment target is classified independent iff it
has zero in-degree in the class assignment dependency graph.  In the code,
`dependent_assignments = set(nodes) - set(edges)` removes nothing (strings
never equal tuples), so every target is classified dependent and the
independent set is empty for every class body — in particular for `x = 1`,
whose target has zero in-degree yet lands in the dependent set. -/
theorem spec2_C3_code_bug :
    (∀ body : List Stmt,
      independent_assignments_of (assignment_build_dependency_graph_for_class body) = [])
    ∧ in_degree (assignment_build_dependency_graph_for_class c3_failing_body) "x" = 0
    ∧ PyVal.pstr "x"
        ∈ dependent_assignments_of (assignment_build_dependency_graph_for_class c3_failing_body)
    ∧ independent_assignments_of (assignment_build_dependency_graph_for_class c3_failing_body)
        = [] :=
  ⟨fun body => independent_assignments_empty _, by decide, by decide, by decide⟩

/-! ### Claim C4: class-body member ordering -/

def isFunctionStmt : Stmt → Bool
  | .funcDef _ _ _ => true
  | _ => false

def isAssignStmt : Stmt → Bool
  | .assign _ _ => true
  | _ => false

theorem firstTargetIn_nil (n : Stmt) : firstTargetIn [] n = false := by
  unfold firstTargetIn
  cases n with
  | assign tgts v =>
      cases tgts with
      | nil => rfl
      | cons t rest => cases t <;> rfl
  | _ => rfl

/-- The independent-assignment group of the class reordering is always empty
(consequence of `independent_assignments_empty`). -/
theorem class_indep_group_empty (body : List Stmt) :
    body.filter (firstTargetIn (independent_assignments_of
      (assignment_build_dependency_graph_for_class body))) = [] := by
  rw [independent_assignments_empty]
  apply List.filter_eq_nil_iff.mpr
  intro a _
  rw [firstTargetIn_nil]
  simp

theorem isPropFn_isFunction {n : Stmt} (h : isPropFn n = true) : isFunctionStmt n = true := by
  cases n <;> simp_all [isPropFn, isFunctionStmt]

theorem isPlainFn_isFunction {n : Stmt} (h : isPlainFn n = true) : isFunctionStmt n = true := by
  cases n <;> simp_all [isPlainFn, isFunctionStmt]

theorem firstTargetIn_isAssign {pvs : List PyVal} {n : Stmt}
    (h : firstTargetIn pvs n = true) : isAssignStmt n = true := by
  cases n <;> simp_all [firstTargetIn, isAssignStmt]

theorem isFunction_not_isAssign {n : Stmt} (h : isFunctionStmt n = true) :
    isAssignStmt n = false := by
  cases n <;> simp_all [isFunctionStmt, isAssignStmt]

theorem isAssign_not_isFunction {n : Stmt} (h : isAssignStmt n = true) :
    isFunctionStmt n = false := by
  cases n <;> simp_all [isFunctionStmt, isAssignStmt]

/-- Filtering with `q` a list that already passes a `p` implying `q`. -/
theorem filter_of_imp {p q : α → Bool} {l : List α}
    (h : ∀ a ∈ l, p a = true → q a = true) : (l.filter p).filter q = l.filter p := by
  apply List.filter_eq_self.mpr
  intro a ha
  rw [List.mem_filter] at ha
  exact h a ha.1 ha.2

/-- Filtering with `q` a list that already passes a `p` excluding `q`. -/
theorem filter_of_excl {p q : α → Bool} {l : List α}
    (h : ∀ a ∈ l, p a = true → q a = false) : (l.filter p).filter q = [] := by
  apply List.filter_eq_nil_iff.mpr
  intro a ha
  rw [List.mem_filter] at ha
  simp [h a ha.1 ha.2]

/-- The structural form of the class-body reordering: the independent group is
empty, so the output starts at the Properties marker. -/
theorem rearrange_class_body_eq (body : List Stmt) :
    rearrange_class_body body
      = properties_header_stmt
          :: body.filter isPropFn
          ++ instance_methods_header_stmt
          :: body.filter isPlainFn
          ++ body.filter (firstTargetIn (dependent_assignments_of
              (assignment_build_dependency_graph_for_class body))) := by
  simp only [rearrange_class_body]
  rw [class_indep_group_empty, List.nil_append]

/-- C4 (amended): the class-body output is the fixed group sequence — (empty)
independent assignments, the Properties marker, the functions recognised by
`has_property_decorators`, the Instance Methods marker, the remaining
functions, then the (all) name-target assignments — and each group preserves
the original body order: the output's function subsequence is the
property-recognised functions in input order followed by the other functions
in input order, the output's assignment subsequence is exactly the dependent
filter of the input in input order, and the output always begins with the
Properties marker (the independent group being empty).  No group is sorted
alphabetically. -/
theorem spec2_C4_amended (body : List Stmt) :
    (rearrange_class_body body).filter isFunctionStmt
        = body.filter isPropFn ++ body.filter isPlainFn
    ∧ (rearrange_class_body body).filter isAssignStmt
        = body.filter (firstTargetIn (dependent_assignments_of
            (assignment_build_dependency_graph_for_class body)))
    ∧ (rearrange_class_body body).head? = some properties_header_stmt := by
  rw [rearrange_class_body_eq]
  refine ⟨?_, ?_, rfl⟩
  · have hhdr1 : isFunctionStmt properties_header_stmt = false := rfl
    have hhdr2 : isFunctionStmt instance_methods_header_stmt = false := rfl
    simp only [List.filter_cons, List.filter_append, hhdr1, hhdr2, if_neg, Bool.false_eq_true,
      not_false_eq_true]
    rw [filter_of_imp (fun a _ h => isPropFn_isFunction h),
      filter_of_imp (fun a _ h => isPlainFn_isFunction h),
      filter_of_excl (fun a _ h => isAssign_not_isFunction (firstTargetIn_isAssign h))]
    simp
  · have hhdr1 : isAssignStmt properties_header_stmt = false := rfl
    have hhdr2 : isAssignStmt instance_methods_header_stmt = false := rfl
    simp only [List.filter_cons, List.filter_append, hhdr1, hhdr2, if_neg, Bool.false_eq_true,
      not_false_eq_true]
    rw [filter_of_excl (fun a _ h => isFunction_not_isAssign (isPropFn_isFunction h)),
      filter_of_excl (fun a _ h => isFunction_not_isAssign (isPlainFn_isFunction h)),
      filter_of_imp (fun a _ h => firstTargetIn_isAssign h)]
    simp

/-- The counterexample class body for C4: `def b` then `@property def a`. -/
def c4_def_b : Stmt := .funcDef "b" [] (stl [.passStmt])

/-- The `@property`-decorated method `a` (the decorator is an `ast.Name`). -/
def c4_def_a : Stmt := .funcDef "a" [Expr.name "property"] (stl [.passStmt])

def c4_body : List Stmt := [c4_def_b, c4_def_a]

/-- C4: the claim predicts the property accessor `a` is grouped before the
plain method `b` and that groups are alphabetical; the code emits `b` before
`a` (original order, inside the Instance Methods group — `@property`, an
`ast.Name` decorator, is not recognised by `has_property_decorators`). -/
theorem spec2_C4_counterexample :
    rearrange_class_body c4_body
      = [properties_header_stmt, instance_methods_header_stmt, c4_def_b, c4_def_a]
    ∧ c4_def_a = Stmt.funcDef "a" [Expr.name "property"] (stl [Stmt.passStmt])
    ∧ c4_def_b = Stmt.funcDef "b" [] (stl [Stmt.passStmt])
    ∧ pyStrLt "a" "b" = true := by
  refine ⟨by decide, rfl, rfl, by decide⟩

/-! ### Destructuring the reordering pipeline -/

theorem stripped_pairs_snd (pairs0 : List (String × Stmt)) :
    (stripped_pairs pairs0).map Prod.snd = pairs0.map Prod.snd := by
  simp [stripped_pairs, List.map_map]

theorem rearrange_core_ok {pairs0 : List (String × Stmt)} {scs : List String}
    {items : List Item} (h : rearrange_core pairs0 = .ok (scs, items)) :
    topological_sort (class_build_dependency_graph ((stripped_pairs pairs0).map Prod.snd))
        = .ok scs
    ∧ items = buildItems (stripped_pairs pairs0)
        (List.insertionSort (pairLE ((stripped_pairs pairs0).map Prod.snd) scs)
          (stripped_pairs pairs0)) := by
  simp only [rearrange_core] at h
  cases ht : topological_sort (class_build_dependency_graph
      ((stripped_pairs pairs0).map Prod.snd)) with
  | error e => rw [ht] at h; exact absurd h (by simp)
  | ok scs2 =>
      rw [ht] at h
      simp only [Except.ok.injEq, Prod.mk.injEq] at h
      exact ⟨by rw [← h.1], by rw [← h.1, ← h.2]⟩

/-! ### Claim C8: docstring preservation -/

theorem module_docstring_cons (c : String) (s : String) (rest : List (String × Stmt))
    (hs : s ≠ "") :
    module_docstring ((c, Stmt.exprStmt (Expr.str s)) :: rest) = some s := by
  simp only [module_docstring]
  simp [hs]

/-- C8 (amended): the module formatter emits a non-empty leading module
docstring as the first element of the output; the class formatter does not
preserve class docstrings — no string-expression statement other than the two
inserted markers ever occurs in a reordered class body, so a class docstring
is deleted. -/
theorem spec2_C8_amended :
    (∀ (c s : String) (rest : List (String × Stmt)) (scs : List String)
        (items : List Item), s ≠ "" →
        rearrange_core ((c, Stmt.exprStmt (Expr.str s)) :: rest) = .ok (scs, items) →
        items.head? = some (Item.docstr s))
    ∧ (∀ (body : List Stmt) (s : String),
        s ≠ "# Properties #\n# ---------- #" →
        s ≠ "# Instance Methods #\n# ---------------- #" →
        Stmt.exprStmt (Expr.str s) ∉ rearrange_class_body body) := by
  constructor
  · intro c s rest scs items hs hr
    obtain ⟨-, hitems⟩ := rearrange_core_ok hr
    rw [hitems]
    unfold buildItems
    rw [show stripped_pairs ((c, Stmt.exprStmt (Expr.str s)) :: rest)
        = (_remove_existing_headers c, Stmt.exprStmt (Expr.str s)) :: stripped_pairs rest
      from rfl]
    rw [module_docstring_cons _ s _ hs]
    rfl
  · intro body s h1 h2 hmem
    rw [rearrange_class_body_eq, List.mem_append, List.mem_append, List.mem_cons,
      List.mem_cons] at hmem
    rcases hmem with ((hmem | hmem) | (hmem | hmem)) | hmem
    · simp only [properties_header_stmt, Stmt.exprStmt.injEq, Expr.str.injEq] at hmem
      exact h1 hmem
    · have := (List.mem_filter.mp hmem).2
      simp [isPropFn] at this
    · simp only [instance_methods_header_stmt, Stmt.exprStmt.injEq, Expr.str.injEq] at hmem
      exact h2 hmem
    · have := (List.mem_filter.mp hmem).2
      simp [isPlainFn] at this
    · have := (List.mem_filter.mp hmem).2
      simp [firstTargetIn] at this

/-- The failing class body for C8: a docstring followed by one method. -/
def c8_failing_body : List Stmt :=
  [.exprStmt (.str "doc"), .funcDef "m" [] (stl [.passStmt])]

/-- C8: the claim says a leading class docstring is emitted first,
unconditionally; the class formatter deletes it from the body instead. -/
theorem spec2_C8_counterexample :
    c8_failing_body.head? = some (Stmt.exprStmt (Expr.str "doc"))
    ∧ Stmt.exprStmt (Expr.str "doc") ∉ rearrange_class_body c8_failing_body := by
  constructor
  · rfl
  · decide

/-- Witness for C8 at a concrete module and class. -/
theorem spec2_C8_witness :
    ([Item.docstr "d"] : List Item).head? = some (Item.docstr "d")
    ∧ Stmt.exprStmt (Expr.str "other") ∉ rearrange_class_body c8_failing_body :=
  ⟨spec2_C8_amended.1 (tripleQuote "d") "d" [] [] [Item.docstr "d"] (by decide) (by decide),
   spec2_C8_amended.2 c8_failing_body "other" (by decide) (by decide)⟩

/-! ### Claim C10: empty and whitespace-only files -/

/-- C10: both `_format_file`s return `False` for a path-matched file whose
content is blank (`not original_code.strip()`), without writing anything:
the file system is returned unchanged and the write log is empty. -/
theorem spec2_C10_blank_file (fs : FS) (filename : String)
    (hb : fs filename = SrcText.blank) :
    ((FILE_PATTERN_match filename || EXTENDED_FILE_PATTERN_match filename) = true →
        FO_format_file fs filename = .ok (some false, fs, []))
    ∧ (FILE_PATTERN_match filename = true →
        CO_format_file fs filename = .ok (some false, fs, [])) := by
  constructor
  · intro hp
    unfold FO_format_file
    rw [hp, hb]
    rfl
  · intro hp
    unfold CO_format_file
    rw [hp, hb]
    rfl

def c10_name : String := "ivy/functional/frontends/foo.py"

def c10_fs : FS := fun _ => SrcText.blank

/-- Witness for C10: a concrete matched path with blank content. -/
theorem spec2_C10_witness :
    FO_format_file c10_fs c10_name = .ok (some false, c10_fs, [])
    ∧ CO_format_file c10_fs c10_name = .ok (some false, c10_fs, []) :=
  ⟨(spec2_C10_blank_file c10_fs c10_name rfl).1 (by decide),
   (spec2_C10_blank_file c10_fs c10_name rfl).2 (by decide)⟩

/-! ### Claim C6: write-iff-changed -/

/-- C6 (amended): on a path-matched, non-blank, parseable file whose
reordering succeeds, `_format_file` always writes the reordered content and
returns `None` — there is no change comparison, so the write happens even when
the reordered text equals the original. -/
theorem spec2_C6_amended (fs : FS) (filename : String) (pairs : List (String × Stmt))
    (items : List Item)
    (hm : FILE_PATTERN_match filename = true)
    (he : EXTENDED_FILE_PATTERN_match filename = false)
    (hf : fs filename = SrcText.module pairs)
    (hr : _rearrange_functions_and_classes pairs false = .ok items) :
    FO_format_file fs filename
      = .ok (none, updateFS fs filename (.module (reparseItems items)), [filename]) := by
  unfold FO_format_file
  rw [hm, he, hf]
  simp only [Bool.true_or, Bool.not_true, Bool.false_eq_true, if_false]
  rw [hr]

def c6_name : String := "ivy/functional/frontends/foo.py"

def c6_pairs : List (String × Stmt) := [("x = 1", .assign [Tgt.name "x"] (Expr.num 1))]

def c6_fs : FS := fun n => if n = c6_name then .module c6_pairs else .blank

/-- C6: an already-formatted file — the reordered content equals the original
content — is still written (the write log is `[c6_name]`), contradicting
"the file is left untouched when the reordered text equals the original". -/
theorem spec2_C6_counterexample :
    FO_format_file c6_fs c6_name
      = .ok (none, updateFS c6_fs c6_name (SrcText.module c6_pairs), [c6_name])
    ∧ updateFS c6_fs c6_name (SrcText.module c6_pairs) c6_name = c6_fs c6_name :=
  ⟨rfl, rfl⟩

def c6_witness_items : List Item :=
  [Item.code "x = 1" (.assign [Tgt.name "x"] (Expr.num 1))]

/-- Witness for C6 (amended) at the concrete already-formatted file. -/
theorem spec2_C6_witness :
    FO_format_file c6_fs c6_name
      = .ok (none, updateFS c6_fs c6_name (.module (reparseItems c6_witness_items)),
          [c6_name]) :=
  spec2_C6_amended c6_fs c6_name c6_pairs c6_witness_items (by decide) (by decide) rfl
    (by decide)

/-! ### Claim C9: failure isolation across the batch -/

/-- C9 (amended): a parse failure (`SyntaxError`) is caught at file
granularity — the file is reported, not written, and the batch continues
exactly as if the file were absent. -/
theorem spec2_C9_amended (fs : FS) (filename : String) (rest : List String)
    (hp : (FILE_PATTERN_match filename || EXTENDED_FILE_PATTERN_match filename) = true)
    (hf : fs filename = SrcText.parseError) :
    FO_format (filename :: rest) fs = FO_format rest fs := by
  have hfile : FO_format_file fs filename = .ok (some false, fs, []) := by
    unfold FO_format_file
    rw [hp, hf]
    rfl
  conv_lhs => rw [FO_format, hfile]
  cases h : FO_format rest fs with
  | error e => simp [h]
  | ok t =>
      obtain ⟨c, f2, l2⟩ := t
      simp [h, pyOr]

def c9_n1 : String := "ivy/functional/frontends/a.py"

def c9_n2 : String := "ivy/functional/frontends/b.py"

/-- A file system where the first file has cyclic class inheritance
(`class A(B)` / `class B(A)`) and the second is an ordinary module. -/
def c9_fs : FS := fun n =>
  if n = c9_n1 then
    .module [("", .classDef "A" [Expr.name "B"] (stl [.passStmt])),
             ("", .classDef "B" [Expr.name "A"] (stl [.passStmt]))]
  else if n = c9_n2 then .module [("y = 1", .assign [Tgt.name "y"] (Expr.num 1))]
  else .blank

def c9_out2 : List (String × Stmt) := [("y = 1", .assign [Tgt.name "y"] (Expr.num 1))]

/-- C9: the claim says any failure is caught at file granularity and remaining
files are still processed.  On the first file `nx.topological_sort` raises
`NetworkXUnfeasible` (cyclic inheritance); only `SyntaxError` is caught, so
the exception escapes `format` and the second file — processable on its own,
as the second conjunct shows — is never reached. -/
theorem spec2_C9_counterexample :
    FO_format [c9_n1, c9_n2] c9_fs = .error PyErr.networkxUnfeasible
    ∧ FO_format_file c9_fs c9_n2
      = .ok (none, updateFS c9_fs c9_n2 (.module c9_out2), [c9_n2]) :=
  ⟨rfl, rfl⟩

def c9_witness_fs : FS := fun _ => SrcText.parseError

def c9_witness_name : String := "ivy/functional/frontends/w.py"

/-- Witness for C9 (amended) at a concrete unparsable file. -/
theorem spec2_C9_witness :
    FO_format [c9_witness_name] c9_witness_fs = FO_format [] c9_witness_fs :=
  spec2_C9_amended c9_witness_fs c9_witness_name [] (by decide) rfl

/-! ### Claim C5: round-trip text fidelity -/

/-- Every non-string-expression pair of the emission loop's input contributes
its span (outer whitespace possibly stripped) as a code item. -/
theorem emitLoop_code_mem (hh da : Bool) (c : String) (n : Stmt)
    (hns : isStrExprStmt n = false) :
    ∀ (l : List (String × Stmt)) (prev : Bool) (last : Option FT), (c, n) ∈ l →
      Item.code c n ∈ emitLoop hh da prev last l
        ∨ Item.code (py_strip c) n ∈ emitLoop hh da prev last l := by
  intro l
  induction l with
  | nil => intro prev last h; cases h
  | cons p rest ih =>
      intro prev last hmem
      obtain ⟨cp, np⟩ := p
      rw [List.mem_cons, Prod.mk.injEq] at hmem
      rcases hmem with ⟨rfl, rfl⟩ | hmem
      · cases n with
        | exprStmt e =>
            cases e with
            | str s => simp [isStrExprStmt] at hns
            | name id => left; simp [emitLoop]
            | num k => left; simp [emitLoop]
            | attrE b a => left; simp [emitLoop]
        | funcDef nm decs body =>
            left
            simp only [emitLoop]
            by_cases hH : is_helper_function (Stmt.funcDef nm decs body) = true
            · rw [if_pos hH]
              exact List.mem_append_right _ (List.mem_cons_self _ _)
            · rw [if_neg hH]
              exact List.mem_append_right _ (List.mem_cons_self _ _)
        | assign tgts v =>
            simp only [emitLoop]
            cases prev with
            | true => right; simp
            | false => left; simp
        | imprt => left; simp [emitLoop]
        | importFrom => left; simp [emitLoop]
        | classDef nm bs body => left; simp [emitLoop]
        | tryStmt body => left; simp [emitLoop]
        | ret e => left; simp [emitLoop]
        | passStmt => left; simp [emitLoop]
      · cases np with
        | exprStmt e =>
            cases e with
            | str s =>
                simp only [emitLoop]
                by_cases hda : da = true
                · rw [if_pos hda]
                  exact ih prev last hmem
                · rw [if_neg hda]
                  rcases ih false last hmem with h | h
                  · exact Or.inl (List.mem_cons_of_mem _ h)
                  · exact Or.inr (List.mem_cons_of_mem _ h)
            | name id =>
                simp only [emitLoop]
                rcases ih false last hmem with h | h
                · exact Or.inl (List.mem_cons_of_mem _ h)
                · exact Or.inr (List.mem_cons_of_mem _ h)
            | num k =>
                simp only [emitLoop]
                rcases ih false last hmem with h | h
                · exact Or.inl (List.mem_cons_of_mem _ h)
                · exact Or.inr (List.mem_cons_of_mem _ h)
            | attrE b a =>
                simp only [emitLoop]
                rcases ih false last hmem with h | h
                · exact Or.inl (List.mem_cons_of_mem _ h)
                · exact Or.inr (List.mem_cons_of_mem _ h)
        | funcDef nm decs body =>
            simp only [emitLoop]
            by_cases hH : is_helper_function (Stmt.funcDef nm decs body) = true
            · rw [if_pos hH]
              rcases ih false (some FT.helper) hmem with h | h
              · exact Or.inl (List.mem_append_right _ (List.mem_cons_of_mem _ h))
              · exact Or.inr (List.mem_append_right _ (List.mem_cons_of_mem _ h))
            · rw [if_neg hH]
              rcases ih false (some FT.api) hmem with h | h
              · exact Or.inl (List.mem_append_right _ (List.mem_cons_of_mem _ h))
              · exact Or.inr (List.mem_append_right _ (List.mem_cons_of_mem _ h))
        | assign tgts v =>
            simp only [emitLoop]
            rcases ih true last hmem with h | h
            · exact Or.inl (List.mem_cons_of_mem _ h)
            · exact Or.inr (List.mem_cons_of_mem _ h)
        | imprt =>
            simp only [emitLoop]
            rcases ih false last hmem with h | h
            · exact Or.inl (List.mem_cons_of_mem _ h)
            · exact Or.inr (List.mem_cons_of_mem _ h)
        | importFrom =>
            simp only [emitLoop]
            rcases ih false last hmem with h | h
            · exact Or.inl (List.mem_cons_of_mem _ h)
            · exact Or.inr (List.mem_cons_of_mem _ h)
        | classDef nm bs body =>
            simp only [emitLoop]
            rcases ih false last hmem with h | h
            · exact Or.inl (List.mem_cons_of_mem _ h)
            · exact Or.inr (List.mem_cons_of_mem _ h)
        | tryStmt body =>
            simp only [emitLoop]
            rcases ih false last hmem with h | h
            · exact Or.inl (List.mem_cons_of_mem _ h)
            · exact Or.inr (List.mem_cons_of_mem _ h)
        | ret e =>
            simp only [emitLoop]
            rcases ih false last hmem with h | h
            · exact Or.inl (List.mem_cons_of_mem _ h)
            · exact Or.inr (List.mem_cons_of_mem _ h)
        | passStmt =>
            simp only [emitLoop]
            rcases ih false last hmem with h | h
            · exact Or.inl (List.mem_cons_of_mem _ h)
            · exact Or.inr (List.mem_cons_of_mem _ h)

/-- C5 (amended): every input declaration that is not a string-expression
statement has its decorated span (after header-comment removal, and with the
outer blank whitespace stripped when it follows another assignment) emitted as
a code item of the pre-black output.  String-expression statements are dropped
when a module docstring is present, and the final text is `black`'s
reformatting of the emitted sequence, so only this emission-level fidelity
holds; the class formatter re-renders with `ast.unparse` and offers no text
fidelity. -/
theorem spec2_C5_amended (pairs : List (String × Stmt)) (scs : List String)
    (items : List Item) (c : String) (n : Stmt)
    (hr : rearrange_core pairs = .ok (scs, items))
    (hm : (c, n) ∈ pairs) (hns : isStrExprStmt n = false) :
    Item.code (_remove_existing_headers c) n ∈ items
      ∨ Item.code (py_strip (_remove_existing_headers c)) n ∈ items := by
  obtain ⟨-, hitems⟩ := rearrange_core_ok hr
  rw [hitems]
  have hm2 : (_remove_existing_headers c, n) ∈ stripped_pairs pairs :=
    List.mem_map_of_mem _ hm
  have hm3 : (_remove_existing_headers c, n)
      ∈ List.insertionSort (pairLE ((stripped_pairs pairs).map Prod.snd) scs)
          (stripped_pairs pairs) :=
    ((List.perm_insertionSort _ _).mem_iff).mpr hm2
  unfold buildItems
  rcases emitLoop_code_mem _ _ (_remove_existing_headers c) n hns _ false none hm3 with
    h | h
  · exact Or.inl (List.mem_append_right _ h)
  · exact Or.inr (List.mem_append_right _ h)

/-- The C5 counterexample module: a docstring followed by a second bare
string-expression statement. -/
def c5_pairs : List (String × Stmt) :=
  [(tripleQuote "doc", .exprStmt (.str "doc")), (tripleQuote "stray", .exprStmt (.str "stray"))]

/-- C5: the stray string-expression declaration is deleted by the reordering —
its statement is absent from the output statement sequence and its text (even
the bare word "stray") does not occur in the emitted text, so it cannot appear
verbatim in the written output. -/
theorem spec2_C5_counterexample :
    (tripleQuote "stray", Stmt.exprStmt (Expr.str "stray")) ∈ c5_pairs
    ∧ rearrange_core c5_pairs = .ok ([], [Item.docstr "doc"])
    ∧ Stmt.exprStmt (Expr.str "stray") ∉ itemStmts [Item.docstr "doc"]
    ∧ py_in "stray" (joinLines (itemCodes [Item.docstr "doc"])) = false := by
  refine ⟨by decide, by decide, by decide, by decide⟩

def c5_witness_pairs : List (String × Stmt) :=
  [("x = 1", .assign [Tgt.name "x"] (Expr.num 1))]

def c5_witness_items : List Item :=
  [Item.code "x = 1" (.assign [Tgt.name "x"] (Expr.num 1))]

/-- Witness for C5 (amended) at a concrete one-assignment module. -/
theorem spec2_C5_witness :
    Item.code (_remove_existing_headers "x = 1") (.assign [Tgt.name "x"] (Expr.num 1))
        ∈ c5_witness_items
      ∨ Item.code (py_strip (_remove_existing_headers "x = 1"))
          (.assign [Tgt.name "x"] (Expr.num 1)) ∈ c5_witness_items :=
  spec2_C5_amended c5_witness_pairs [] c5_witness_items "x = 1"
    (.assign [Tgt.name "x"] (Expr.num 1)) (by decide) (by decide) (by decide)

/-! ### Claim C7: section headers -/

theorem count_header_code (h c : String) (n : Stmt) (l : List Item) :
    List.count (Item.header h) (Item.code c n :: l) = List.count (Item.header h) l := by
  rw [List.count_cons]
  have : (Item.header h == Item.code c n) = false := rfl
  simp [this]

theorem main_ne_helpers :
    (Item.header main_section_header == Item.header helpers_section_header) = false := by
  decide

theorem count_helpers_main (l : List Item) :
    List.count (Item.header helpers_section_header) (Item.header main_section_header :: l)
      = List.count (Item.header helpers_section_header) l := by
  rw [List.count_cons, main_ne_helpers]
  simp

/-- The relation guaranteed by sortedness: no api function precedes a helper. -/
def noHelperAfterApi (x y : String × Stmt) : Prop :=
  is_api_function x.2 = true → is_helper_function y.2 = false

theorem sort_key_fst_helper {n : Stmt} (h : is_helper_function n = true)
    (ctx : List Stmt) (scs : List String) : (sort_key ctx scs n).1 = 4 := by
  cases n <;> simp [is_helper_function] at h
  case funcDef nm decs body =>
    simp [sort_key, is_helper_function, h]

theorem sort_key_fst_api {n : Stmt} (h : is_api_function n = true)
    (ctx : List Stmt) (scs : List String) : (sort_key ctx scs n).1 = 5 := by
  cases n <;> simp [is_api_function] at h
  case funcDef nm decs body =>
    simp only [sort_key]
    rw [if_neg (by simp [h])]

/-- In the sorted pair list, every helper function precedes every api
function: key 4 sorts strictly before key 5. -/
theorem sorted_noHelperAfterApi (ctx : List Stmt) (scs : List String)
    (l : List (String × Stmt)) :
    List.Pairwise noHelperAfterApi (List.insertionSort (pairLE ctx scs) l) := by
  have hs := List.sorted_insertionSort (pairLE ctx scs) l
  refine hs.imp ?_
  intro a b hab hapi
  by_contra hh
  rw [Bool.not_eq_false] at hh
  have ha : (sort_key ctx scs a.2).1 = 5 := sort_key_fst_api hapi ctx scs
  have hb : (sort_key ctx scs b.2).1 = 4 := sort_key_fst_helper hh ctx scs
  exact not_keyLE_of_fst_lt (by rw [ha, hb]; norm_num) hab

/-- With no helper function in the input, the loop emits no Helpers header. -/
theorem emitLoop_count_helpers_zero (hh da : Bool) :
    ∀ (l : List (String × Stmt)) (prev : Bool) (last : Option FT),
      l.any (fun p => is_helper_function p.2) = false →
      (emitLoop hh da prev last l).count (Item.header helpers_section_header) = 0 := by
  intro l
  induction l with
  | nil => intro prev last _; rfl
  | cons p rest ih =>
      intro prev last hany
      obtain ⟨cp, np⟩ := p
      rw [List.any_cons, Bool.or_eq_false_iff] at hany
      obtain ⟨hhead, htail⟩ := hany
      cases np with
      | exprStmt e =>
          cases e with
          | str s =>
              simp only [emitLoop]
              by_cases hda : da = true
              · rw [if_pos hda]; exact ih prev last htail
              · rw [if_neg hda, count_header_code]; exact ih false last htail
          | name id => simp only [emitLoop]; rw [count_header_code]; exact ih false last htail
          | num k => simp only [emitLoop]; rw [count_header_code]; exact ih false last htail
          | attrE b a => simp only [emitLoop]; rw [count_header_code]; exact ih false last htail
      | funcDef nm decs body =>
          simp only [emitLoop]
          rw [if_neg (by simp [hhead])]
          by_cases hc : ((last != some FT.api) && hh) = true
          · rw [if_pos hc]
            simp only [List.cons_append, List.nil_append]
            rw [count_helpers_main, count_header_code]
            exact ih false (some FT.api) htail
          · rw [if_neg hc]
            simp only [List.nil_append]
            rw [count_header_code]
            exact ih false (some FT.api) htail
      | assign tgts v =>
          simp only [emitLoop]; rw [count_header_code]; exact ih true last htail
      | imprt => simp only [emitLoop]; rw [count_header_code]; exact ih false last htail
      | importFrom => simp only [emitLoop]; rw [count_header_code]; exact ih false last htail
      | classDef nm bs body =>
          simp only [emitLoop]; rw [count_header_code]; exact ih false last htail
      | tryStmt body =>
          simp only [emitLoop]; rw [count_header_code]; exact ih false last htail
      | ret e => simp only [emitLoop]; rw [count_header_code]; exact ih false last htail
      | passStmt => simp only [emitLoop]; rw [count_header_code]; exact ih false last htail

/-- With `last_function_type = "helper"` and helpers never following an api
function, no further Helpers header is emitted. -/
theorem emitLoop_count_helpers_state (hh da : Bool) :
    ∀ (l : List (String × Stmt)) (prev : Bool),
      List.Pairwise noHelperAfterApi l →
      (emitLoop hh da prev (some FT.helper) l).count (Item.header helpers_section_header)
        = 0 := by
  intro l
  induction l with
  | nil => intro prev _; rfl
  | cons p rest ih =>
      intro prev hpw
      obtain ⟨cp, np⟩ := p
      rw [List.pairwise_cons] at hpw
      obtain ⟨hhead, htail⟩ := hpw
      cases np with
      | exprStmt e =>
          cases e with
          | str s =>
              simp only [emitLoop]
              by_cases hda : da = true
              · rw [if_pos hda]; exact ih prev htail
              · rw [if_neg hda, count_header_code]; exact ih false htail
          | name id => simp only [emitLoop]; rw [count_header_code]; exact ih false htail
          | num k => simp only [emitLoop]; rw [count_header_code]; exact ih false htail
          | attrE b a => simp only [emitLoop]; rw [count_header_code]; exact ih false htail
      | funcDef nm decs body =>
          simp only [emitLoop]
          by_cases hH : is_helper_function (Stmt.funcDef nm decs body) = true
          · rw [if_pos hH]
            rw [show ((some FT.helper != some FT.helper) = false) from rfl]
            simp only [Bool.false_eq_true, if_false, List.nil_append]
            rw [count_header_code]
            exact ih false htail
          · rw [if_neg hH]
            have hapi : is_api_function (Stmt.funcDef nm decs body) = true := by
              simp [is_api_function]
              simpa using hH
            have hrest : rest.any (fun p => is_helper_function p.2) = false := by
              rw [List.any_eq_false]
              intro x hx
              simp [hhead x hx hapi]
            by_cases hc : ((some FT.helper != some FT.api) && hh) = true
            · rw [if_pos hc]
              simp only [List.cons_append, List.nil_append]
              rw [count_helpers_main, count_header_code]
              exact emitLoop_count_helpers_zero hh da rest false (some FT.api) hrest
            · rw [if_neg hc]
              simp only [List.nil_append]
              rw [count_header_code]
              exact emitLoop_count_helpers_zero hh da rest false (some FT.api) hrest
      | assign tgts v =>
          simp only [emitLoop]; rw [count_header_code]; exact ih true htail
      | imprt => simp only [emitLoop]; rw [count_header_code]; exact ih false htail
      | importFrom => simp only [emitLoop]; rw [count_header_code]; exact ih false htail
      | classDef nm bs body =>
          simp only [emitLoop]; rw [count_header_code]; exact ih false htail
      | tryStmt body =>
          simp only [emitLoop]; rw [count_header_code]; exact ih false htail
      | ret e => simp only [emitLoop]; rw [count_header_code]; exact ih false htail
      | passStmt => simp only [emitLoop]; rw [count_header_code]; exact ih false htail

/-- Exactly one Helpers header is emitted iff some helper function occurs,
provided `last_function_type` is not already helper and helpers all precede
api functions. -/
theorem emitLoop_count_helpers (hh da : Bool) :
    ∀ (l : List (String × Stmt)) (prev : Bool) (last : Option FT),
      (last != some FT.helper) = true →
      List.Pairwise noHelperAfterApi l →
      (emitLoop hh da prev last l).count (Item.header helpers_section_header)
        = if l.any (fun p => is_helper_function p.2) then 1 else 0 := by
  intro l
  induction l with
  | nil => intro prev last _ _; rfl
  | cons p rest ih =>
      intro prev last hlast hpw
      obtain ⟨cp, np⟩ := p
      rw [List.pairwise_cons] at hpw
      obtain ⟨hhead, htail⟩ := hpw
      rw [List.any_cons]
      cases np with
      | exprStmt e =>
          cases e with
          | str s =>
              simp only [emitLoop, is_helper_function, Bool.false_or]
              by_cases hda : da = true
              · rw [if_pos hda]; exact ih prev last hlast htail
              · rw [if_neg hda, count_header_code]; exact ih false last hlast htail
          | name id =>
              simp only [emitLoop, is_helper_function, Bool.false_or]
              rw [count_header_code]; exact ih false last hlast htail
          | num k =>
              simp only [emitLoop, is_helper_function, Bool.false_or]
              rw [count_header_code]; exact ih false last hlast htail
          | attrE b a =>
              simp only [emitLoop, is_helper_function, Bool.false_or]
              rw [count_header_code]; exact ih false last hlast htail
      | funcDef nm decs body =>
          simp only [emitLoop]
          by_cases hH : is_helper_function (Stmt.funcDef nm decs body) = true
          · rw [if_pos hH, if_pos hlast]
            simp only [List.cons_append, List.nil_append]
            rw [List.count_cons_self, count_header_code]
            rw [emitLoop_count_helpers_state hh da rest false htail]
            rw [hH]
            simp
          · rw [if_neg hH]
            rw [Bool.not_eq_true] at hH
            rw [hH, Bool.false_or]
            by_cases hc : ((last != some FT.api) && hh) = true
            · rw [if_pos hc]
              simp only [List.cons_append, List.nil_append]
              rw [count_helpers_main, count_header_code]
              exact ih false (some FT.api) rfl htail
            · rw [if_neg hc]
              simp only [List.nil_append]
              rw [count_header_code]
              exact ih false (some FT.api) rfl htail
      | assign tgts v =>
          simp only [emitLoop, is_helper_function, Bool.false_or]
          rw [count_header_code]; exact ih true last hlast htail
      | imprt =>
          simp only [emitLoop, is_helper_function, Bool.false_or]
          rw [count_header_code]; exact ih false last hlast htail
      | importFrom =>
          simp only [emitLoop, is_helper_function, Bool.false_or]
          rw [count_header_code]; exact ih false last hlast htail
      | classDef nm bs body =>
          simp only [emitLoop, is_helper_function, Bool.false_or]
          rw [count_header_code]; exact ih false last hlast htail
      | tryStmt body =>
          simp only [emitLoop, is_helper_function, Bool.false_or]
          rw [count_header_code]; exact ih false last hlast htail
      | ret e =>
          simp only [emitLoop, is_helper_function, Bool.false_or]
          rw [count_header_code]; exact ih false last hlast htail
      | passStmt =>
          simp only [emitLoop, is_helper_function, Bool.false_or]
          rw [count_header_code]; exact ih false last hlast htail

theorem helpers_ne_main_header :
    Item.header helpers_section_header ≠ Item.header main_section_header := by
  decide

/-- A Main header in the emitted list implies `has_helper_functions` was true
and some api function occurs in the input. -/
theorem emitLoop_main_mem_imp (hh da : Bool) :
    ∀ (l : List (String × Stmt)) (prev : Bool) (last : Option FT),
      Item.header main_section_header ∈ emitLoop hh da prev last l →
      hh = true ∧ l.any (fun p => is_api_function p.2) = true := by
  intro l
  induction l with
  | nil => intro prev last h; cases h
  | cons p rest ih =>
      intro prev last hmem
      obtain ⟨cp, np⟩ := p
      rw [List.any_cons]
      cases np with
      | exprStmt e =>
          cases e with
          | str s =>
              simp only [emitLoop] at hmem
              by_cases hda : da = true
              · rw [if_pos hda] at hmem
                obtain ⟨h1, h2⟩ := ih prev last hmem
                exact ⟨h1, by rw [h2]; simp⟩
              · rw [if_neg hda] at hmem
                rcases List.mem_cons.mp hmem with h | h
                · cases h
                · obtain ⟨h1, h2⟩ := ih false last h
                  exact ⟨h1, by rw [h2]; simp⟩
          | name id =>
              simp only [emitLoop] at hmem
              rcases List.mem_cons.mp hmem with h | h
              · cases h
              · obtain ⟨h1, h2⟩ := ih false last h
                exact ⟨h1, by rw [h2]; simp⟩
          | num k =>
              simp only [emitLoop] at hmem
              rcases List.mem_cons.mp hmem with h | h
              · cases h
              · obtain ⟨h1, h2⟩ := ih false last h
                exact ⟨h1, by rw [h2]; simp⟩
          | attrE b a =>
              simp only [emitLoop] at hmem
              rcases List.mem_cons.mp hmem with h | h
              · cases h
              · obtain ⟨h1, h2⟩ := ih false last h
                exact ⟨h1, by rw [h2]; simp⟩
      | funcDef nm decs body =>
          simp only [emitLoop] at hmem
          by_cases hH : is_helper_function (Stmt.funcDef nm decs body) = true
          · rw [if_pos hH] at hmem
            rw [List.mem_append] at hmem
            rcases hmem with h | h
            · by_cases hl : (last != some FT.helper) = true
              · rw [if_pos hl] at h
                rcases List.mem_cons.mp h with h | h
                · exact absurd h.symm helpers_ne_main_header
                · cases h
              · rw [if_neg hl] at h
                cases h
            · rcases List.mem_cons.mp h with h | h
              · cases h
              · obtain ⟨h1, h2⟩ := ih false (some FT.helper) h
                exact ⟨h1, by rw [h2]; simp⟩
          · rw [if_neg hH] at hmem
            rw [List.mem_append] at hmem
            have hapi : is_api_function (Stmt.funcDef nm decs body) = true := by
              simp [is_api_function]
              simpa using hH
            rcases hmem with h | h
            · by_cases hc : ((last != some FT.api) && hh) = true
              · rw [if_pos hc] at h
                refine ⟨(Bool.and_eq_true _ _).mp hc |>.2, ?_⟩
                rw [hapi]
                simp
              · rw [if_neg hc] at h
                cases h
            · rcases List.mem_cons.mp h with h | h
              · cases h
              · obtain ⟨h1, -⟩ := ih false (some FT.api) h
                refine ⟨h1, ?_⟩
                rw [hapi]
                simp
      | assign tgts v =>
          simp only [emitLoop] at hmem
          rcases List.mem_cons.mp hmem with h | h
          · cases h
          · obtain ⟨h1, h2⟩ := ih true last h
            exact ⟨h1, by rw [h2]; simp⟩
      | imprt =>
          simp only [emitLoop] at hmem
          rcases List.mem_cons.mp hmem with h | h
          · cases h
          · obtain ⟨h1, h2⟩ := ih false last h
            exact ⟨h1, by rw [h2]; simp⟩
      | importFrom =>
          simp only [emitLoop] at hmem
          rcases List.mem_cons.mp hmem with h | h
          · cases h
          · obtain ⟨h1, h2⟩ := ih false last h
            exact ⟨h1, by rw [h2]; simp⟩
      | classDef nm bs body =>
          simp only [emitLoop] at hmem
          rcases List.mem_cons.mp hmem with h | h
          · cases h
          · obtain ⟨h1, h2⟩ := ih false last h
            exact ⟨h1, by rw [h2]; simp⟩
      | tryStmt body =>
          simp only [emitLoop] at hmem
          rcases List.mem_cons.mp hmem with h | h
          · cases h
          · obtain ⟨h1, h2⟩ := ih false last h
            exact ⟨h1, by rw [h2]; simp⟩
      | ret e =>
          simp only [emitLoop] at hmem
          rcases List.mem_cons.mp hmem with h | h
          · cases h
          · obtain ⟨h1, h2⟩ := ih false last h
            exact ⟨h1, by rw [h2]; simp⟩
      | passStmt =>
          simp only [emitLoop] at hmem
          rcases List.mem_cons.mp hmem with h | h
          · cases h
          · obtain ⟨h1, h2⟩ := ih false last h
            exact ⟨h1, by rw [h2]; simp⟩

/-- With `has_helper_functions` true, an api function in the input, and
`last_function_type` not yet api, the Main header is emitted. -/
theorem emitLoop_main_mem (da : Bool) :
    ∀ (l : List (String × Stmt)) (prev : Bool) (last : Option FT),
      l.any (fun p => is_api_function p.2) = true →
      (last != some FT.api) = true →
      Item.header main_section_header ∈ emitLoop true da prev last l := by
  intro l
  induction l with
  | nil => intro prev last h _; simp at h
  | cons p rest ih =>
      intro prev last hany hlast
      obtain ⟨cp, np⟩ := p
      rw [List.any_cons] at hany
      cases np with
      | exprStmt e =>
          have hrest : rest.any (fun p => is_api_function p.2) = true := by
            cases e <;> simpa [is_api_function] using hany
          cases e with
          | str s =>
              simp only [emitLoop]
              by_cases hda : da = true
              · rw [if_pos hda]; exact ih prev last hrest hlast
              · rw [if_neg hda]
                exact List.mem_cons_of_mem _ (ih false last hrest hlast)
          | name id =>
              simp only [emitLoop]
              exact List.mem_cons_of_mem _ (ih false last hrest hlast)
          | num k =>
              simp only [emitLoop]
              exact List.mem_cons_of_mem _ (ih false last hrest hlast)
          | attrE b a =>
              simp only [emitLoop]
              exact List.mem_cons_of_mem _ (ih false last hrest hlast)
      | funcDef nm decs body =>
          simp only [emitLoop]
          by_cases hH : is_helper_function (Stmt.funcDef nm decs body) = true
          · rw [if_pos hH]
            have hrest : rest.any (fun p => is_api_function p.2) = true := by
              rcases Bool.or_eq_true_iff.mp hany with h | h
              · exact absurd h (by simp [is_api_function, hH])
              · exact h
            refine List.mem_append_right _ (List.mem_cons_of_mem _ ?_)
            exact ih false (some FT.helper) hrest rfl
          · rw [if_neg hH]
            rw [if_pos (by rw [hlast]; rfl)]
            exact List.mem_cons_self _ _
      | assign tgts v =>
          simp only [emitLoop]
          have hrest : rest.any (fun p => is_api_function p.2) = true := by
            simpa [is_api_function] using hany
          exact List.mem_cons_of_mem _ (ih true last hrest hlast)
      | imprt =>
          simp only [emitLoop]
          have hrest : rest.any (fun p => is_api_function p.2) = true := by
            simpa [is_api_function] using hany
          exact List.mem_cons_of_mem _ (ih false last hrest hlast)
      | importFrom =>
          simp only [emitLoop]
          have hrest : rest.any (fun p => is_api_function p.2) = true := by
            simpa [is_api_function] using hany
          exact List.mem_cons_of_mem _ (ih false last hrest hlast)
      | classDef nm bs body =>
          simp only [emitLoop]
          have hrest : rest.any (fun p => is_api_function p.2) = true := by
            simpa [is_api_function] using hany
          exact List.mem_cons_of_mem _ (ih false last hrest hlast)
      | tryStmt body =>
          simp only [emitLoop]
          have hrest : rest.any (fun p => is_api_function p.2) = true := by
            simpa [is_api_function] using hany
          exact List.mem_cons_of_mem _ (ih false last hrest hlast)
      | ret e =>
          simp only [emitLoop]
          have hrest : rest.any (fun p => is_api_function p.2) = true := by
            simpa [is_api_function] using hany
          exact List.mem_cons_of_mem _ (ih false last hrest hlast)
      | passStmt =>
          simp only [emitLoop]
          have hrest : rest.any (fun p => is_api_function p.2) = true := by
            simpa [is_api_function] using hany
          exact List.mem_cons_of_mem _ (ih false last hrest hlast)

theorem cons_code_eq_append {c : String} {n : Stmt} {tail : List Item}
    {pre : List Item} {h : String} {post : List Item}
    (heq : Item.code c n :: tail = pre ++ Item.header h :: post) :
    ∃ pre2, pre = Item.code c n :: pre2 ∧ tail = pre2 ++ Item.header h :: post := by
  cases pre with
  | nil => simp at heq
  | cons x pre2 =>
      rw [List.cons_append] at heq
      injection heq with h1 h2
      exact ⟨pre2, by rw [← h1], h2⟩

theorem cons_header_eq_append {h0 : String} {c : String} {n : Stmt} {tail : List Item}
    {pre : List Item} {h : String} {post : List Item}
    (heq : Item.header h0 :: Item.code c n :: tail = pre ++ Item.header h :: post) :
    (h = h0 ∧ post = Item.code c n :: tail)
    ∨ ∃ pre2, pre = Item.header h0 :: pre2
        ∧ Item.code c n :: tail = pre2 ++ Item.header h :: post := by
  cases pre with
  | nil =>
      rw [List.nil_append] at heq
      injection heq with h1 h2
      injection h1 with h1
      exact Or.inl ⟨h1.symm, h2.symm⟩
  | cons x pre2 =>
      rw [List.cons_append] at heq
      injection heq with h1 h2
      exact Or.inr ⟨pre2, by rw [← h1], h2⟩

/-- Every header emitted by the loop is immediately followed by the code item
of the function that triggered it: the Helpers header by a helper-category
function, the Main header by an api-category function. -/
theorem emitLoop_header_adjacent (hh da : Bool) :
    ∀ (l : List (String × Stmt)) (prev : Bool) (last : Option FT)
      (pre : List Item) (h : String) (post : List Item),
      emitLoop hh da prev last l = pre ++ Item.header h :: post →
      ∃ c n post2, post = Item.code c n :: post2
        ∧ ((h = helpers_section_header ∧ is_helper_function n = true)
            ∨ (h = main_section_header ∧ is_api_function n = true)) := by
  intro l
  induction l with
  | nil =>
      intro prev last pre h post heq
      exact absurd heq.symm (by simp [emitLoop])
  | cons p rest ih =>
      intro prev last pre h post heq
      obtain ⟨cp, np⟩ := p
      cases np with
      | exprStmt e =>
          cases e with
          | str s =>
              simp only [emitLoop] at heq
              by_cases hda : da = true
              · rw [if_pos hda] at heq
                exact ih prev last pre h post heq
              · rw [if_neg hda] at heq
                obtain ⟨pre2, -, heq2⟩ := cons_code_eq_append heq
                exact ih false last pre2 h post heq2
          | name id =>
              simp only [emitLoop] at heq
              obtain ⟨pre2, -, heq2⟩ := cons_code_eq_append heq
              exact ih false last pre2 h post heq2
          | num k =>
              simp only [emitLoop] at heq
              obtain ⟨pre2, -, heq2⟩ := cons_code_eq_append heq
              exact ih false last pre2 h post heq2
          | attrE b a =>
              simp only [emitLoop] at heq
              obtain ⟨pre2, -, heq2⟩ := cons_code_eq_append heq
              exact ih false last pre2 h post heq2
      | funcDef nm decs body =>
          simp only [emitLoop] at heq
          by_cases hH : is_helper_function (Stmt.funcDef nm decs body) = true
          · rw [if_pos hH] at heq
            by_cases hl : (last != some FT.helper) = true
            · rw [if_pos hl] at heq
              rw [List.cons_append, List.nil_append] at heq
              rcases cons_header_eq_append heq with ⟨rfl, rfl⟩ | ⟨pre2, -, heq2⟩
              · exact ⟨cp, Stmt.funcDef nm decs body, _, rfl, Or.inl ⟨rfl, hH⟩⟩
              · obtain ⟨pre3, -, heq3⟩ := cons_code_eq_append heq2
                exact ih false (some FT.helper) pre3 h post heq3
            · rw [if_neg hl] at heq
              rw [List.nil_append] at heq
              obtain ⟨pre2, -, heq2⟩ := cons_code_eq_append heq
              exact ih false (some FT.helper) pre2 h post heq2
          · rw [if_neg hH] at heq
            have hapi : is_api_function (Stmt.funcDef nm decs body) = true := by
              simp [is_api_function]
              simpa using hH
            by_cases hc : ((last != some FT.api) && hh) = true
            · rw [if_pos hc] at heq
              rw [List.cons_append, List.nil_append] at heq
              rcases cons_header_eq_append heq with ⟨rfl, rfl⟩ | ⟨pre2, -, heq2⟩
              · exact ⟨cp, Stmt.funcDef nm decs body, _, rfl, Or.inr ⟨rfl, hapi⟩⟩
              · obtain ⟨pre3, -, heq3⟩ := cons_code_eq_append heq2
                exact ih false (some FT.api) pre3 h post heq3
            · rw [if_neg hc] at heq
              rw [List.nil_append] at heq
              obtain ⟨pre2, -, heq2⟩ := cons_code_eq_append heq
              exact ih false (some FT.api) pre2 h post heq2
      | assign tgts v =>
          simp only [emitLoop] at heq
          obtain ⟨pre2, -, heq2⟩ := cons_code_eq_append heq
          exact ih true last pre2 h post heq2
      | imprt =>
          simp only [emitLoop] at heq
          obtain ⟨pre2, -, heq2⟩ := cons_code_eq_append heq
          exact ih false last pre2 h post heq2
      | importFrom =>
          simp only [emitLoop] at heq
          obtain ⟨pre2, -, heq2⟩ := cons_code_eq_append heq
          exact ih false last pre2 h post heq2
      | classDef nm bs body =>
          simp only [emitLoop] at heq
          obtain ⟨pre2, -, heq2⟩ := cons_code_eq_append heq
          exact ih false last pre2 h post heq2
      | tryStmt body =>
          simp only [emitLoop] at heq
          obtain ⟨pre2, -, heq2⟩ := cons_code_eq_append heq
          exact ih false last pre2 h post heq2
      | ret e =>
          simp only [emitLoop] at heq
          obtain ⟨pre2, -, heq2⟩ := cons_code_eq_append heq
          exact ih false last pre2 h post heq2
      | passStmt =>
          simp only [emitLoop] at heq
          obtain ⟨pre2, -, heq2⟩ := cons_code_eq_append heq
          exact ih false last pre2 h post heq2

theorem any_perm {α : Type} {l1 l2 : List α} (h : l1.Perm l2) (f : α → Bool) :
    l1.any f = l2.any f := by
  cases hb : l2.any f with
  | false =>
      rw [List.any_eq_false] at hb ⊢
      intro x hx
      exact hb x (h.mem_iff.mp hx)
  | true =>
      rw [List.any_eq_true] at hb ⊢
      obtain ⟨x, hx, hfx⟩ := hb
      exact ⟨x, h.mem_iff.mpr hx, hfx⟩

theorem any_stripped (pairs : List (String × Stmt)) (g : Stmt → Bool) :
    (stripped_pairs pairs).any (fun p => g p.2) = pairs.any (fun p => g p.2) := by
  unfold stripped_pairs
  rw [List.any_map]
  rfl

theorem any_sorted_pairs (ctx : List Stmt) (scs : List String)
    (l : List (String × Stmt)) (g : Stmt → Bool) :
    (List.insertionSort (pairLE ctx scs) l).any (fun p => g p.2)
      = l.any (fun p => g p.2) :=
  any_perm (List.perm_insertionSort _ _) _

theorem count_header_docstr (h s : String) (l : List Item) :
    List.count (Item.header h) (Item.docstr s :: l) = List.count (Item.header h) l := by
  rw [List.count_cons]
  have : (Item.docstr s == Item.header h) = false := rfl
  simp [this]

/-- C7 (amended): the Helpers header appears exactly once iff a
helper-category function (leading underscore or composite-decorated) exists;
the Main header appears iff an api-category function exists AND an
underscore-named function exists — `has_helper_functions` tests only
`name.startswith("_")`, so a composite-decorated helper alone triggers the
Helpers header but not the Main header; and every emitted header is
immediately followed by the code of the function that triggered it. -/
theorem spec2_C7_amended (pairs : List (String × Stmt)) (scs : List String)
    (items : List Item)
    (hr : rearrange_core pairs = .ok (scs, items)) :
    items.count (Item.header helpers_section_header)
        = (if pairs.any (fun p => is_helper_function p.2) then 1 else 0)
    ∧ (Item.header main_section_header ∈ items ↔
        pairs.any (fun p => is_underscore_function p.2) = true
          ∧ pairs.any (fun p => is_api_function p.2) = true)
    ∧ (∀ (pre : List Item) (h : String) (post : List Item),
        items = pre ++ Item.header h :: post →
        ∃ c n post2, post = Item.code c n :: post2
          ∧ ((h = helpers_section_header ∧ is_helper_function n = true)
              ∨ (h = main_section_header ∧ is_api_function n = true))) := by
  obtain ⟨-, hitems⟩ := rearrange_core_ok hr
  subst hitems
  simp only [buildItems]
  have hpw := sorted_noHelperAfterApi ((stripped_pairs pairs).map Prod.snd) scs
    (stripped_pairs pairs)
  have hanyH := any_sorted_pairs ((stripped_pairs pairs).map Prod.snd) scs
    (stripped_pairs pairs) is_helper_function
  have hanyU := any_sorted_pairs ((stripped_pairs pairs).map Prod.snd) scs
    (stripped_pairs pairs) is_underscore_function
  have hanyA := any_sorted_pairs ((stripped_pairs pairs).map Prod.snd) scs
    (stripped_pairs pairs) is_api_function
  rw [any_stripped pairs is_helper_function] at hanyH
  rw [any_stripped pairs is_underscore_function] at hanyU
  rw [any_stripped pairs is_api_function] at hanyA
  refine ⟨?_, ⟨?_, ?_⟩, ?_⟩
  · -- helpers header count
    rw [List.count_append]
    have hpre : List.count (Item.header helpers_section_header)
        (match module_docstring (stripped_pairs pairs) with
          | some s => [Item.docstr s]
          | none => ([] : List Item)) = 0 := by
      cases module_docstring (stripped_pairs pairs) with
      | some s => rw [count_header_docstr]; rfl
      | none => rfl
    rw [hpre, Nat.zero_add]
    rw [emitLoop_count_helpers _ _ _ false none rfl hpw]
    rw [hanyH]
  · -- main header present implies underscore helper and api function
    intro hmem
    rw [List.mem_append] at hmem
    rcases hmem with hmem | hmem
    · exfalso
      revert hmem
      cases module_docstring (stripped_pairs pairs) with
      | some s => intro hmem; rcases List.mem_cons.mp hmem with h | h
                  · cases h
                  · cases h
      | none => intro hmem; cases hmem
    · obtain ⟨h1, h2⟩ := emitLoop_main_mem_imp _ _ _ false none hmem
      rw [hanyU] at h1
      rw [hanyA] at h2
      exact ⟨h1, h2⟩
  · -- underscore helper and api function imply main header present
    rintro ⟨hu, ha⟩
    apply List.mem_append_right
    rw [show (List.insertionSort
          (pairLE ((stripped_pairs pairs).map Prod.snd) scs) (stripped_pairs pairs)).any
            (fun p => is_underscore_function p.2) = true from by rw [hanyU]; exact hu]
    exact emitLoop_main_mem _ _ false none (by rw [hanyA]; exact ha) rfl
  · -- adjacency
    intro pre h post heq
    revert heq
    cases module_docstring (stripped_pairs pairs) with
    | some s =>
        intro heq
        rw [List.cons_append, List.nil_append] at heq
        cases pre with
        | nil =>
            rw [List.nil_append] at heq
            injection heq with h1 h2
            cases h1
        | cons x pre2 =>
            rw [List.cons_append] at heq
            injection heq with h1 h2
            exact emitLoop_header_adjacent _ _ _ false none pre2 h post h2
    | none =>
        intro heq
        rw [List.nil_append] at heq
        exact emitLoop_header_adjacent _ _ _ false none pre h post heq

/-- The C7 counterexample module: a composite-decorated helper `f` (no
leading underscore) and a plain api function `g`. -/
def c7_f : Stmt := .funcDef "f" [Expr.attrE (Expr.name "st") "composite"] (stl [.passStmt])

def c7_g : Stmt := .funcDef "g" [] (stl [.passStmt])

def c7_pairs : List (String × Stmt) :=
  [("@st.composite\ndef f(): pass", c7_f), ("def g(): pass", c7_g)]

def c7_items : List Item :=
  [Item.header helpers_section_header, Item.code "@st.composite\ndef f(): pass" c7_f,
   Item.code "def g(): pass" c7_g]

/-- C7: with a composite-decorated (helper-category) function and a public
function, the claim demands a Main header before the public function; the
code emits the Helpers header but no Main header, because
`has_helper_functions` only counts underscore-named functions. -/
theorem spec2_C7_counterexample :
    rearrange_core c7_pairs = .ok ([], c7_items)
    ∧ is_helper_function c7_f = true
    ∧ is_api_function c7_g = true
    ∧ Item.header main_section_header ∉ c7_items := by
  refine ⟨by decide, by decide, by decide, by decide⟩

def c7_witness_pairs : List (String × Stmt) :=
  [("def _h(): pass", .funcDef "_h" [] (stl [.passStmt])),
   ("def g(): pass", .funcDef "g" [] (stl [.passStmt]))]

def c7_witness_items : List Item :=
  [Item.header helpers_section_header,
   Item.code "def _h(): pass" (.funcDef "_h" [] (stl [.passStmt])),
   Item.header main_section_header,
   Item.code "def g(): pass" (.funcDef "g" [] (stl [.passStmt]))]

/-! ### Claim C1: dependency safety of the assignment ordering -/

theorem itemStmts_cons_code (c : String) (n : Stmt) (l : List Item) :
    itemStmts (Item.code c n :: l) = n :: itemStmts l := rfl

theorem itemStmts_cons_header (h : String) (l : List Item) :
    itemStmts (Item.header h :: l) = itemStmts l := rfl

theorem itemStmts_cons_docstr (s : String) (l : List Item) :
    itemStmts (Item.docstr s :: l) = Stmt.exprStmt (Expr.str s) :: itemStmts l := rfl

theorem itemStmts_append (l1 l2 : List Item) :
    itemStmts (l1 ++ l2) = itemStmts l1 ++ itemStmts l2 :=
  List.filterMap_append l1 l2 _

theorem itemStmts_chunk (b : Bool) (hdr c : String) (n : Stmt) (tail : List Item) :
    itemStmts ((if b = true then [Item.header hdr] else []) ++ Item.code c n :: tail)
      = n :: itemStmts tail := by
  cases b with
  | false => rfl
  | true => rfl

/-- The statement sequence produced by the emission loop is the non-skipped
input statements in order. -/
theorem itemStmts_emitLoop (hh da : Bool) :
    ∀ (l : List (String × Stmt)) (prev : Bool) (last : Option FT),
      itemStmts (emitLoop hh da prev last l)
        = (l.filter fun p => !(da && isStrExprStmt p.2)).map Prod.snd := by
  intro l
  induction l with
  | nil => intro prev last; rfl
  | cons p rest ih =>
      intro prev last
      obtain ⟨cp, np⟩ := p
      cases np with
      | exprStmt e =>
          cases e with
          | str s =>
              simp only [emitLoop]
              by_cases hda : da = true
              · rw [if_pos hda, ih prev last, List.filter_cons]
                rw [if_neg (by simp [hda, isStrExprStmt])]
              · rw [if_neg hda, itemStmts_cons_code, ih false last, List.filter_cons]
                have hda' : da = false := by revert hda; cases da <;> simp
                rw [if_pos (by simp [hda', isStrExprStmt])]
                rfl
          | name id =>
              simp only [emitLoop]
              rw [itemStmts_cons_code, ih false last, List.filter_cons]
              rw [if_pos (by simp [isStrExprStmt])]
              rfl
          | num k =>
              simp only [emitLoop]
              rw [itemStmts_cons_code, ih false last, List.filter_cons]
              rw [if_pos (by simp [isStrExprStmt])]
              rfl
          | attrE b a =>
              simp only [emitLoop]
              rw [itemStmts_cons_code, ih false last, List.filter_cons]
              rw [if_pos (by simp [isStrExprStmt])]
              rfl
      | funcDef nm decs body =>
          simp only [emitLoop]
          by_cases hH : is_helper_function (Stmt.funcDef nm decs body) = true
          · rw [if_pos hH, itemStmts_chunk, ih false (some FT.helper), List.filter_cons]
            rw [if_pos (by simp [isStrExprStmt])]
            rfl
          · rw [if_neg hH, itemStmts_chunk, ih false (some FT.api), List.filter_cons]
            rw [if_pos (by simp [isStrExprStmt])]
            rfl
      | assign tgts v =>
          simp only [emitLoop]
          rw [itemStmts_cons_code, ih true last, List.filter_cons]
          rw [if_pos (by simp [isStrExprStmt])]
          rfl
      | imprt =>
          simp only [emitLoop]
          rw [itemStmts_cons_code, ih false last, List.filter_cons]
          rw [if_pos (by simp [isStrExprStmt])]
          rfl
      | importFrom =>
          simp only [emitLoop]
          rw [itemStmts_cons_code, ih false last, List.filter_cons]
          rw [if_pos (by simp [isStrExprStmt])]
          rfl
      | classDef nm bs body =>
          simp only [emitLoop]
          rw [itemStmts_cons_code, ih false last, List.filter_cons]
          rw [if_pos (by simp [isStrExprStmt])]
          rfl
      | tryStmt body =>
          simp only [emitLoop]
          rw [itemStmts_cons_code, ih false last, List.filter_cons]
          rw [if_pos (by simp [isStrExprStmt])]
          rfl
      | ret e =>
          simp only [emitLoop]
          rw [itemStmts_cons_code, ih false last, List.filter_cons]
          rw [if_pos (by simp [isStrExprStmt])]
          rfl
      | passStmt =>
          simp only [emitLoop]
          rw [itemStmts_cons_code, ih false last, List.filter_cons]
          rw [if_pos (by simp [isStrExprStmt])]
          rfl

theorem mem_all_assignments {ctx : List Stmt} {tgts : List Tgt} {val : Expr} {ta : String}
    (hmem : Stmt.assign tgts val ∈ ctx) (hta : Tgt.name ta ∈ tgts) :
    ta ∈ all_assignments_of ctx := by
  unfold all_assignments_of
  rw [List.mem_flatten]
  refine ⟨assign_target_names tgts, ?_, ?_⟩
  · have := List.mem_map_of_mem
      (fun n : Stmt =>
        match n with
        | Stmt.assign targets _ =>
            targets.filterMap fun t =>
              match t with
              | Tgt.name id => some id
              | _ => none
        | _ => ([] : List String)) hmem
    exact this
  · exact List.mem_filterMap.mpr ⟨Tgt.name ta, hta, rfl⟩

/-- An assignment `sort_key` classifies as independent has first key
component 1. -/
theorem sort_key_fst_assign_indep {ctx : List Stmt} {scs : List String}
    {tgts : List Tgt} {val : Expr}
    (hrel : related_helper_function (joinCommas (assign_target_names tgts)) ctx = none)
    (hattr : _is_assignment_target_an_attribute (Stmt.assign tgts val) = false)
    (hdep : _is_assignment_dependent_on_assignment ctx (Stmt.assign tgts val) = false)
    (hdfc : _is_assignment_dependent_on_function_or_class ctx (Stmt.assign tgts val)
      = false) :
    (sort_key ctx scs (Stmt.assign tgts val)).1 = 1 := by
  simp only [sort_key, hrel]
  rw [if_neg (by simp [hattr]), if_neg (by simp [hdep]), if_neg (by simp [hdfc])]

/-- An assignment whose right-hand side references a sibling assignment
target has first key component 5.5, 6 or 7 — in every case above 1. -/
theorem sort_key_fst_assign_dep {ctx : List Stmt} {scs : List String}
    {tgts : List Tgt} {val : Expr} {ta : String}
    (hta : ta ∈ all_assignments_of ctx) (href : ta ∈ extract_names val) :
    1 < (sort_key ctx scs (Stmt.assign tgts val)).1 := by
  simp only [sort_key]
  cases hrel : related_helper_function (joinCommas (assign_target_names tgts)) ctx with
  | some r =>
      show (1 : ℚ) < 6
      norm_num
  | none =>
      by_cases hattr : _is_assignment_target_an_attribute (Stmt.assign tgts val) = true
      · rw [if_pos hattr]
        show (1 : ℚ) < mkRat 11 2
        decide
      · rw [if_neg hattr]
        have hdep : _is_assignment_dependent_on_assignment ctx (Stmt.assign tgts val)
            = true := by
          simp only [_is_assignment_dependent_on_assignment, extract_names_from_assignment]
          rw [List.any_eq_true]
          exact ⟨ta, hta, List.elem_eq_true_of_mem href⟩
        rw [if_pos hdep]
        show (1 : ℚ) < 7
        norm_num

/-- From the pairwise no-`b`-before-`a` property, every `a` occurrence
precedes every `b` occurrence. -/
theorem pairwise_get_order {l : List Stmt} {a b : Stmt}
    (hpw : List.Pairwise (fun x y => ¬(x = b ∧ y = a)) l) (hne : b ≠ a) :
    ∀ (i j : Nat) (hi : i < l.length) (hj : j < l.length),
      l.get ⟨i, hi⟩ = b → l.get ⟨j, hj⟩ = a → j < i := by
  intro i j hi hj hbi haj
  rw [List.get_eq_getElem] at hbi haj
  rw [List.pairwise_iff_getElem] at hpw
  rcases Nat.lt_trichotomy i j with hlt | heq | hgt
  · exact absurd ⟨hbi, haj⟩ (hpw i j hi hj hlt)
  · exfalso
    subst heq
    rw [hbi] at haj
    exact hne haj
  · exact hgt

/-- C1 (amended): whenever `sort_key` assigns `a` the independent-assignment
category (key 1: not helper-anchored, no attribute target, right-hand side
referencing no sibling assignment/function/class name) and sibling assignment
`b` references `a`'s target name, every occurrence of `a` in the output
statement sequence comes strictly before every occurrence of `b`.  (When `a`
itself is a dependent assignment — category 7 — the alphabetical tie-break can
place `b` first, which is the counterexample.) -/
theorem spec2_C1_amended (pairs : List (String × Stmt)) (scs : List String)
    (items : List Item) (ca cb : String) (tgtsA : List Tgt) (valA : Expr)
    (tgtsB : List Tgt) (valB : Expr) (ta : String)
    (hr : rearrange_core pairs = .ok (scs, items))
    (hma : (ca, Stmt.assign tgtsA valA) ∈ pairs)
    (hmb : (cb, Stmt.assign tgtsB valB) ∈ pairs)
    (hta : Tgt.name ta ∈ tgtsA)
    (href : ta ∈ extract_names valB)
    (hrel : related_helper_function (joinCommas (assign_target_names tgtsA))
        (pairs.map Prod.snd) = none)
    (hattr : _is_assignment_target_an_attribute (Stmt.assign tgtsA valA) = false)
    (hdep : _is_assignment_dependent_on_assignment (pairs.map Prod.snd)
        (Stmt.assign tgtsA valA) = false)
    (hdfc : _is_assignment_dependent_on_function_or_class (pairs.map Prod.snd)
        (Stmt.assign tgtsA valA) = false) :
    Stmt.assign tgtsA valA ∈ itemStmts items
    ∧ Stmt.assign tgtsB valB ∈ itemStmts items
    ∧ ∀ (i j : Nat) (hi : i < (itemStmts items).length)
        (hj : j < (itemStmts items).length),
        (itemStmts items).get ⟨i, hi⟩ = Stmt.assign tgtsB valB →
        (itemStmts items).get ⟨j, hj⟩ = Stmt.assign tgtsA valA → j < i := by
  obtain ⟨-, hitems⟩ := rearrange_core_ok hr
  have hctx := stripped_pairs_snd pairs
  have hKa : (sort_key ((stripped_pairs pairs).map Prod.snd) scs
      (Stmt.assign tgtsA valA)).1 = 1 := by
    rw [hctx]
    exact sort_key_fst_assign_indep hrel hattr hdep hdfc
  have htaAll : ta ∈ all_assignments_of ((stripped_pairs pairs).map Prod.snd) := by
    rw [hctx]
    exact mem_all_assignments (List.mem_map_of_mem Prod.snd hma) hta
  have hKb : 1 < (sort_key ((stripped_pairs pairs).map Prod.snd) scs
      (Stmt.assign tgtsB valB)).1 :=
    sort_key_fst_assign_dep htaAll href
  have hne : Stmt.assign tgtsB valB ≠ Stmt.assign tgtsA valA := by
    intro he
    rw [← he] at hKa
    rw [hKa] at hKb
    exact lt_irrefl _ hKb
  have hmaSort : (_remove_existing_headers ca, Stmt.assign tgtsA valA)
      ∈ List.insertionSort (pairLE ((stripped_pairs pairs).map Prod.snd) scs)
          (stripped_pairs pairs) :=
    ((List.perm_insertionSort _ _).mem_iff).mpr (List.mem_map_of_mem _ hma)
  have hmbSort : (_remove_existing_headers cb, Stmt.assign tgtsB valB)
      ∈ List.insertionSort (pairLE ((stripped_pairs pairs).map Prod.snd) scs)
          (stripped_pairs pairs) :=
    ((List.perm_insertionSort _ _).mem_iff).mpr (List.mem_map_of_mem _ hmb)
  have hstmts : itemStmts items
      = itemStmts
          (match module_docstring (stripped_pairs pairs) with
            | some s => [Item.docstr s]
            | none => ([] : List Item))
        ++ ((List.insertionSort (pairLE ((stripped_pairs pairs).map Prod.snd) scs)
              (stripped_pairs pairs)).filter fun p =>
                !((module_docstring (stripped_pairs pairs)).isSome
                  && isStrExprStmt p.2)).map Prod.snd := by
    rw [hitems]
    simp only [buildItems, itemStmts_append]
    rw [itemStmts_emitLoop]
  have hmemA : Stmt.assign tgtsA valA ∈ itemStmts items := by
    rw [hstmts]
    exact List.mem_append_right _
      (List.mem_map_of_mem _ (List.mem_filter.mpr ⟨hmaSort, by simp [isStrExprStmt]⟩))
  have hmemB : Stmt.assign tgtsB valB ∈ itemStmts items := by
    rw [hstmts]
    exact List.mem_append_right _
      (List.mem_map_of_mem _ (List.mem_filter.mpr ⟨hmbSort, by simp [isStrExprStmt]⟩))
  refine ⟨hmemA, hmemB, ?_⟩
  have hpwSort : List.Pairwise
      (fun x y : String × Stmt =>
        ¬(x.2 = Stmt.assign tgtsB valB ∧ y.2 = Stmt.assign tgtsA valA))
      (List.insertionSort (pairLE ((stripped_pairs pairs).map Prod.snd) scs)
        (stripped_pairs pairs)) := by
    refine (List.sorted_insertionSort _ _).imp ?_
    rintro x y hxy ⟨hxb, hya⟩
    unfold pairLE at hxy
    rw [hxb, hya] at hxy
    exact not_keyLE_of_fst_lt (by rw [hKa]; exact hKb) hxy
  have hpw : List.Pairwise
      (fun x y : Stmt =>
        ¬(x = Stmt.assign tgtsB valB ∧ y = Stmt.assign tgtsA valA))
      (itemStmts items) := by
    rw [hstmts, List.pairwise_append]
    refine ⟨?_, ?_, ?_⟩
    · cases module_docstring (stripped_pairs pairs) with
      | some s => exact List.pairwise_singleton _ _
      | none => exact List.Pairwise.nil
    · rw [List.pairwise_map]
      exact List.Pairwise.sublist (List.filter_sublist _) hpwSort
    · intro x hx y _
      rintro ⟨hxb, -⟩
      revert hx
      cases module_docstring (stripped_pairs pairs) with
      | some s =>
          intro hx
          rw [itemStmts_cons_docstr] at hx
          rcases List.mem_cons.mp hx with h | h
          · rw [hxb] at h
            cases h
          · cases h
      | none => intro hx; cases hx
  exact pairwise_get_order hpw hne

/-- The C1 counterexample module: `a0 = 1; z = a0; y = z`. -/
def c1_a0 : Stmt := .assign [Tgt.name "a0"] (Expr.num 1)

/-- The assignment `z = a0` (the claim's `a`, target referenced by `y`). -/
def c1_z : Stmt := .assign [Tgt.name "z"] (Expr.name "a0")

/-- The assignment `y = z` (the claim's `b`, referencing `z`). -/
def c1_y : Stmt := .assign [Tgt.name "y"] (Expr.name "z")

def c1_pairs : List (String × Stmt) := [("a0 = 1", c1_a0), ("z = a0", c1_z), ("y = z", c1_y)]

def c1_items : List Item :=
  [Item.code "a0 = 1" c1_a0, Item.code "y = z" c1_y, Item.code "z = a0" c1_z]

/-- C1: the dependency chain `a0 → z → y` is acyclic (its assignment graph
topologically sorts), `y = z` references sibling target `z`, yet the
reordered output places `y` strictly before `z`: both are dependent
assignments (category 7) and the alphabetical tie-break `"y" < "z"` wins. -/
theorem spec2_C1_counterexample :
    rearrange_core c1_pairs = .ok ([], c1_items)
    ∧ itemStmts c1_items = [c1_a0, c1_y, c1_z]
    ∧ c1_z = Stmt.assign [Tgt.name "z"] (Expr.name "a0")
    ∧ c1_y = Stmt.assign [Tgt.name "y"] (Expr.name "z")
    ∧ "z" ∈ extract_names (Expr.name "z")
    ∧ topological_sort (assignment_build_dependency_graph [c1_a0, c1_z, c1_y])
        = .ok ["a0", "z", "y"] := by
  refine ⟨by decide, by decide, rfl, rfl, by decide, by decide⟩

def c1w_pairs : List (String × Stmt) :=
  [("x = 1", .assign [Tgt.name "x"] (Expr.num 1)),
   ("y = x", .assign [Tgt.name "y"] (Expr.name "x"))]

def c1w_items : List Item :=
  [Item.code "x = 1" (.assign [Tgt.name "x"] (Expr.num 1)),
   Item.code "y = x" (.assign [Tgt.name "y"] (Expr.name "x"))]

/-- Witness for C1 (amended) at the module `x = 1; y = x`. -/
theorem spec2_C1_witness :
    Stmt.assign [Tgt.name "x"] (Expr.num 1) ∈ itemStmts c1w_items
    ∧ Stmt.assign [Tgt.name "y"] (Expr.name "x") ∈ itemStmts c1w_items
    ∧ ∀ (i j : Nat) (hi : i < (itemStmts c1w_items).length)
        (hj : j < (itemStmts c1w_items).length),
        (itemStmts c1w_items).get ⟨i, hi⟩ = Stmt.assign [Tgt.name "y"] (Expr.name "x") →
        (itemStmts c1w_items).get ⟨j, hj⟩ = Stmt.assign [Tgt.name "x"] (Expr.num 1) →
        j < i :=
  spec2_C1_amended c1w_pairs [] c1w_items "x = 1" "y = x" [Tgt.name "x"] (Expr.num 1)
    [Tgt.name "y"] (Expr.name "x") "x" (by decide) (by decide) (by decide) (by decide)
    (by decide) (by decide) (by decide) (by decide) (by decide)

/-! ### Claim C2: idempotence -/

/-- The C2 failing module: helper `_bb` mentions `qq`, helper `_aa` mentions
`zz`, and the assignments `qq = 1`, `zz = 1` anchor to them by
`related_helper_function`. -/
def c2_bb : Stmt := .funcDef "_bb" [] (stl [.ret (Expr.name "qq")])

def c2_aa : Stmt := .funcDef "_aa" [] (stl [.ret (Expr.name "zz")])

def c2_qq : Stmt := .assign [Tgt.name "qq"] (Expr.num 1)

def c2_zz : Stmt := .assign [Tgt.name "zz"] (Expr.num 1)

def c2_input : List Stmt := [c2_bb, c2_aa, c2_qq, c2_zz]

def c2_once : List Stmt := [c2_aa, c2_bb, c2_qq, c2_zz]

def c2_twice : List Stmt := [c2_aa, c2_bb, c2_zz, c2_qq]

/-- C2: reordering this module once yields `_aa, _bb, qq, zz`; reordering the
output again yields `_aa, _bb, zz, qq` — the helper-anchored assignments sort
by the anchor function's *position*, which the first run changed, so the
second run produces a different statement sequence (and hence different text:
the renderer preserves the statement sequence).  `reorder(reorder(X)) ≠
reorder(X)`. -/
theorem spec2_C2_code_bug :
    reorder_stmts c2_input = .ok c2_once
    ∧ reorder_stmts c2_once = .ok c2_twice
    ∧ c2_twice ≠ c2_once :=
  ⟨by decide, by decide, by decide⟩

/-- Witness for C7 (amended) at an underscore helper plus an api function. -/
theorem spec2_C7_witness :
    c7_witness_items.count (Item.header helpers_section_header)
        = (if c7_witness_pairs.any (fun p => is_helper_function p.2) then 1 else 0)
    ∧ (Item.header main_section_header ∈ c7_witness_items ↔
        c7_witness_pairs.any (fun p => is_underscore_function p.2) = true
          ∧ c7_witness_pairs.any (fun p => is_api_function p.2) = true)
    ∧ (∀ (pre : List Item) (h : String) (post : List Item),
        c7_witness_items = pre ++ Item.header h :: post →
        ∃ c n post2, post = Item.code c n :: post2
          ∧ ((h = helpers_section_header ∧ is_helper_function n = true)
              ∨ (h = main_section_header ∧ is_api_function n = true))) :=
  spec2_C7_amended c7_witness_pairs [] c7_witness_items (by decide)

end IvyLint
